import Mathlib

/-!
Verification of the page-cache core of the CMSE storage engine.

The embedding below follows the live build of the repository: the tests
include `src/bufferpool/buffer_pool_manager.h`, whose declarations
(`FindFreeFrame`, `FlushAllPages`, an `LRUReplacer* replacer_` member and a
by-value `std::list<frame_id_t> free_list_`) are implemented by the
LRUReplacer-based translation unit (`buffer_pool_manager.cpp`, the copy whose
banner reads "Implementation of BufferPoolManager using LRUReplacer").  A
second, stale copy of the buffer pool manager (the one defining `FindVictim`
and `FlushAll` against a `std::list<frame_id_t>* free_list_`) does not match
that header and is not part of the program modelled here.

Modelling conventions:
* `page_id_t` is a 32-bit signed integer with sentinel `-1`; it is modelled
  as `Int` (the 2^31 wrap of the allocation counter is out of scope).
* `frame_id_t` values are produced only by the pool itself and always lie in
  `[0, pool_size)`; they are modelled as `Nat`.
* machine `int` pin counts are modelled as `Int`, so that non-negativity is
  a proved property rather than a typing artifact.
* the 4 KiB frame buffer is `[PageHeader | payload]`; the buffer pool only
  ever manipulates the header fields and whole buffers, so the buffer is
  modelled as a header record plus the raw payload bytes.
-/

namespace CMSE

/-! ### LRU replacer

Translated from `src/bufferpool/lru_replacer.cpp`.  The C++ object keeps a
doubly-linked list `lru_list_` (front = most recently used, back = least
recently used) together with a hash map `lru_map_` from frame id to list
node.  The map only provides O(1) access to the node of a frame and carries
no further information, so the model keeps the list alone; map membership is
list membership. -/

structure LRUReplacer where
  lru_list : List Nat
  deriving Repr, DecidableEq

namespace LRUReplacer

/-- A replacer as constructed by `LRUReplacer(size_t)`: both containers empty
(the constructor ignores its argument). -/
def empty : LRUReplacer := ⟨[]⟩

/-- `Victim`: if the list is empty return false; otherwise remove and return
the frame at the back of the list (the least recently used one). -/
def victim (r : LRUReplacer) : Option Nat × LRUReplacer :=
  match r.lru_list.getLast? with
  | none => (none, r)
  | some v => (some v, ⟨r.lru_list.dropLast⟩)

/-- `Pin`: if the frame is tracked, erase its node from list and map;
otherwise do nothing.  `List.erase` removes the first occurrence, which is
the unique occurrence since `Unpin` never inserts a duplicate. -/
def pin (r : LRUReplacer) (f : Nat) : LRUReplacer :=
  ⟨r.lru_list.erase f⟩

/-- `Unpin`: if the frame is already tracked do nothing; otherwise insert it
at the front of the list (the MRU end) and record it in the map. -/
def unpin (r : LRUReplacer) (f : Nat) : LRUReplacer :=
  if f ∈ r.lru_list then r else ⟨f :: r.lru_list⟩

/-- `Size`: the number of tracked frames. -/
def size (r : LRUReplacer) : Nat := r.lru_list.length

/-- An operation issued to a standalone replacer. -/
inductive ROp where
  | unpin (f : Nat)
  | pin (f : Nat)
  | victim
  deriving Repr, DecidableEq

/-- One operation applied to a replacer, discarding the victim result. -/
def rstep (r : LRUReplacer) : ROp → LRUReplacer
  | .unpin f => r.unpin f
  | .pin f => r.pin f
  | .victim => (r.victim).2

/-- A sequence of operations applied to a replacer. -/
def rrun (r : LRUReplacer) : List ROp → LRUReplacer
  | [] => r
  | op :: ops => rrun (rstep r op) ops

/-- Successive `victim` calls: the list of the first `n` results. -/
def victims (r : LRUReplacer) : Nat → List (Option Nat)
  | 0 => []
  | n + 1 =>
    let p := r.victim
    p.1 :: victims p.2 n

end LRUReplacer

/-! ### Byte-level disk reads

Translated from `DiskManager::ReadPage` in `src/disk/disk_manager.cpp`.  The
backing file is a byte sequence; a read seeks to `page_id * PAGE_SIZE` and
reads up to `PAGE_SIZE` bytes into the buffer.  Whatever portion of the
buffer the stream could not fill (the whole buffer when the offset is at or
past end-of-file, the tail on a partial read at end-of-file) is zero-filled
with `memset`.  The only failure path in the source is a hard I/O error
(`badbit`), which is outside the model. -/

def PAGE_SIZE : Nat := 4096

/-- Bytes a `ReadPage` call delivers into its 4 KiB buffer: the available
file bytes starting at the page's offset, zero-padded to `PAGE_SIZE`. -/
def readPageBytes (file : List Nat) (page_id : Nat) : List Nat :=
  let got := (file.drop (page_id * PAGE_SIZE)).take PAGE_SIZE
  got ++ List.replicate (PAGE_SIZE - got.length) 0

/-! ### Association lists

`std::unordered_map` with unique keys, used for the page table and for the
page-granular view of the backing file.  `insertA` is `operator[]`
assignment (update in place when the key exists, insert otherwise) and
`eraseA` is `erase(key)`. -/

/-- Lookup of a key in an association list. -/
def lookupA {α : Type} (k : Int) : List (Int × α) → Option α
  | [] => none
  | (k₁, v) :: rest => if k₁ = k then some v else lookupA k rest

/-- Map-style assignment: overwrite the entry of `k` if present, append a new
entry otherwise. -/
def insertA {α : Type} (k : Int) (v : α) : List (Int × α) → List (Int × α)
  | [] => [(k, v)]
  | (k₁, v₁) :: rest =>
    if k₁ = k then (k, v) :: rest else (k₁, v₁) :: insertA k v rest

/-- Map-style erase of a key (removes its unique entry when present). -/
def eraseA {α : Type} (k : Int) : List (Int × α) → List (Int × α)
  | [] => []
  | (k₁, v₁) :: rest => if k₁ = k then rest else (k₁, v₁) :: eraseA k rest

/-- The keys of an association list. -/
def keysA {α : Type} (l : List (Int × α)) : List Int := l.map Prod.fst

/-- The values of an association list. -/
def valsA {α : Type} (l : List (Int × α)) : List α := l.map Prod.snd

/-! ### Pages

Translated from `src/page/page.h`.  A `Page` object is a raw 4 KiB buffer
`data_` whose first `sizeof(PageHeader) = 16` bytes are the header, plus two
in-memory metadata fields that are never written to disk.  The buffer is
accessed only through `GetHeader()` (the header fields) and as a whole
block, so it is modelled as the header record plus the payload bytes. -/

/-- The constant `INVALID_PAGE_ID = -1` from `src/common/types.h`. -/
def INVALID_PAGE_ID : Int := -1

/-- Payload bytes of a page: `PAGE_SIZE - sizeof(PageHeader)`. -/
def PAYLOAD_SIZE : Nat := PAGE_SIZE - 16

/-- The on-page header (`PageHeader` in `src/page/page.h`): page id,
creation version, key count and leaf flag.  The three reserved padding
bytes carry no information. -/
structure PageHeader where
  page_id : Int
  creation_version : Int
  key_count : Nat
  is_leaf : Nat
  deriving Repr, DecidableEq

/-- A full 4 KiB page image: header plus payload bytes. -/
structure PageImage where
  header : PageHeader
  payload : List Nat
  deriving Repr, DecidableEq

/-- The image produced by `ResetMemory()`: all 4096 bytes zero.  Note that a
zeroed header decodes to page id `0`, not to the sentinel. -/
def zeroImage : PageImage :=
  ⟨⟨0, 0, 0, 0⟩, List.replicate PAYLOAD_SIZE 0⟩

/-- An in-memory frame: the buffer plus the metadata fields of `Page`.
`pin_count_` is a C++ `int`, hence `Int` here. -/
structure Page where
  data : PageImage
  is_dirty : Bool
  pin_count : Int
  deriving Repr, DecidableEq

/-- A frame as default-constructed by `new Page[pool_size]`: metadata
initialised by the in-class initialisers, buffer bytes indeterminate.  The
pool zeroes every buffer before first use (`ResetMemory` runs before any
read or hand-out), so the indeterminate bytes are modelled as zero. -/
def defaultPage : Page := ⟨zeroImage, false, 0⟩

/-! ### Disk manager, page-granular view

Translated from `src/disk/disk_manager.cpp`.  The buffer pool reads and
writes the backing file only in whole 4 KiB blocks at offset
`page_id * PAGE_SIZE`, so for the buffer-pool model the byte file is
represented page-granularly: an association from page id to the last block
written there.  A read of a never-written page yields zeros (the byte file
returns end-of-file zeros or filesystem-hole zeros there), which is
`zeroImage`.  `readPageBytes` above is the byte-exact model of the same
source function. -/

structure DiskManager where
  store : List (Int × PageImage)
  next_page_id : Int
  num_flushes : Nat
  deriving Repr, DecidableEq

namespace DiskManager

/-- A disk manager over a fresh (empty) backing file. -/
def init : DiskManager := ⟨[], 0, 0⟩

/-- `ReadPage`: the block at the page's offset, zeros beyond end-of-file. -/
def readPage (d : DiskManager) (pid : Int) : PageImage :=
  (lookupA pid d.store).getD zeroImage

/-- `WritePage`: store the full block at the page's offset, flush, and count
the flush.  A negative id would cast to an offset past any file and make the
write fail (the source throws before incrementing the counter); no buffer
pool path reaches that case, and it is modelled as leaving the state
unchanged. -/
def writePage (d : DiskManager) (pid : Int) (img : PageImage) : DiskManager :=
  if 0 ≤ pid then
    { d with store := insertA pid img d.store, num_flushes := d.num_flushes + 1 }
  else d

/-- `AllocatePage`: return the monotone counter and increment it. -/
def allocatePage (d : DiskManager) : Int × DiskManager :=
  (d.next_page_id, { d with next_page_id := d.next_page_id + 1 })

end DiskManager

/-! ### Buffer pool manager

Translated from the LRUReplacer-based `BufferPoolManager` implementation
(the translation unit matching `src/bufferpool/buffer_pool_manager.h`). -/

structure BufferPoolManager where
  pool_size : Nat
  pages : List Page
  replacer : LRUReplacer
  free_list : List Nat
  page_table : List (Int × Nat)
  disk : DiskManager
  deriving Repr, DecidableEq

namespace BufferPoolManager

/-- The constructor: `pool_size` default frames, an empty replacer, and all
frames on the free list in index order. -/
def mk' (pool_size : Nat) (disk : DiskManager) : BufferPoolManager :=
  { pool_size := pool_size
    pages := List.replicate pool_size defaultPage
    replacer := LRUReplacer.empty
    free_list := List.range pool_size
    page_table := []
    disk := disk }

/-- The frame at index `fid` of the `pages_` array. -/
def getPage (s : BufferPoolManager) (fid : Nat) : Page :=
  s.pages.getD fid defaultPage

/-- Overwrite the frame at index `fid`. -/
def setPage (s : BufferPoolManager) (fid : Nat) (p : Page) : BufferPoolManager :=
  { s with pages := s.pages.set fid p }

/-- `FindFreeFrame`: pop the free list if non-empty; otherwise take the
replacer's victim, write it back if dirty, drop its page-table entry, and
zero its buffer and metadata.  Returns `none` when the free list is empty
and every resident frame is pinned. -/
def findFreeFrame (s : BufferPoolManager) : Option (Nat × BufferPoolManager) :=
  match s.free_list with
  | f :: rest => some (f, { s with free_list := rest })
  | [] =>
    match s.replacer.victim with
    | (none, _) => none
    | (some v, rep₁) =>
      let victim := s.getPage v
      let disk₁ :=
        if victim.is_dirty then s.disk.writePage victim.data.header.page_id victim.data
        else s.disk
      let s₁ :=
        { s with
          replacer := rep₁
          disk := disk₁
          page_table := eraseA victim.data.header.page_id s.page_table }
      some (v, s₁.setPage v defaultPage)

/-- `FetchPage`.  On a hit the frame is pinned in the replacer and its pin
count incremented.  On a miss a frame is obtained from `FindFreeFrame`, the
block is read from disk into the zeroed buffer, the header page id is
stamped, and the frame is registered with pin count 1 and a clean dirty
flag.  Returns the frame index handed to the caller. -/
def fetchPage (s : BufferPoolManager) (pid : Int) : Option Nat × BufferPoolManager :=
  match lookupA pid s.page_table with
  | some fid =>
    let p := s.getPage fid
    let s₁ := { s with replacer := s.replacer.pin fid }
    (some fid, s₁.setPage fid { p with pin_count := p.pin_count + 1 })
  | none =>
    match findFreeFrame s with
    | none => (none, s)
    | some (fid, s₁) =>
      let img := s₁.disk.readPage pid
      let img₁ := { img with header := { img.header with page_id := pid } }
      let s₂ := s₁.setPage fid ⟨img₁, false, 1⟩
      (some fid,
        { s₂ with
          page_table := insertA pid fid s₂.page_table
          replacer := s₂.replacer.pin fid })

/-- `NewPage`: obtain a frame, allocate a fresh page id, zero the buffer,
stamp the header (page id, leaf flag, key count, creation version), and
register the frame pinned once.  The source marks the fresh page dirty
(`is_dirty_ = true`).  Returns the allocated id and the frame index. -/
def newPage (s : BufferPoolManager) : Option (Int × Nat) × BufferPoolManager :=
  match findFreeFrame s with
  | none => (none, s)
  | some (fid, s₁) =>
    let a := s₁.disk.allocatePage
    let img := { zeroImage with header := { zeroImage.header with page_id := a.1 } }
    let s₂ := { s₁ with disk := a.2 }
    let s₃ := s₂.setPage fid ⟨img, true, 1⟩
    (some (a.1, fid),
      { s₃ with
        page_table := insertA a.1 fid s₃.page_table
        replacer := s₃.replacer.pin fid })

/-- `UnpinPage`: false when the page is absent or its pin count is already
non-positive; otherwise decrement the pin count, make the dirty flag sticky,
and hand the frame to the replacer when the count reaches zero. -/
def unpinPage (s : BufferPoolManager) (pid : Int) (is_dirty : Bool) :
    Bool × BufferPoolManager :=
  match lookupA pid s.page_table with
  | none => (false, s)
  | some fid =>
    let p := s.getPage fid
    if p.pin_count ≤ 0 then (false, s)
    else
      let p₁ :=
        { p with
          pin_count := p.pin_count - 1
          is_dirty := p.is_dirty || is_dirty }
      let s₁ := s.setPage fid p₁
      if p.pin_count - 1 = 0 then (true, { s₁ with replacer := s₁.replacer.unpin fid })
      else (true, s₁)

/-- `FlushPage`: false when the page is absent; otherwise write the frame's
full block to disk unconditionally and clear the dirty flag. -/
def flushPage (s : BufferPoolManager) (pid : Int) : Bool × BufferPoolManager :=
  match lookupA pid s.page_table with
  | none => (false, s)
  | some fid =>
    let p := s.getPage fid
    let s₁ := { s with disk := s.disk.writePage pid p.data }
    (true, s₁.setPage fid { p with is_dirty := false })

/-- `DeletePage`: absent pages delete trivially; pinned pages refuse; an
unpinned resident page is dropped from replacer and page table, its buffer
zeroed, its header id set to the sentinel, its metadata reset, and its frame
appended to the free list.  The page's bytes are never written to disk. -/
def deletePage (s : BufferPoolManager) (pid : Int) : Bool × BufferPoolManager :=
  match lookupA pid s.page_table with
  | none => (true, s)
  | some fid =>
    let p := s.getPage fid
    if 0 < p.pin_count then (false, s)
    else
      let s₁ :=
        { s with
          replacer := s.replacer.pin fid
          page_table := eraseA pid s.page_table }
      let s₂ := s₁.setPage fid
        ⟨{ zeroImage with header := { zeroImage.header with page_id := INVALID_PAGE_ID } },
          false, 0⟩
      (true, { s₂ with free_list := s₂.free_list ++ [fid] })

/-- `FlushAllPages`: iterate the page table and write back every dirty
resident frame, clearing its dirty flag. -/
def flushAllPages (s : BufferPoolManager) : BufferPoolManager :=
  s.page_table.foldl
    (fun acc e =>
      let p := acc.getPage e.2
      if p.is_dirty then
        ({ acc with disk := acc.disk.writePage e.1 p.data }).setPage e.2
          { p with is_dirty := false }
      else acc)
    s

end BufferPoolManager

/-! ### Operation traces over the buffer pool -/

/-- A public buffer pool operation. -/
inductive Op where
  | fetch (pid : Int)
  | newp
  | unpin (pid : Int) (d : Bool)
  | flush (pid : Int)
  | del (pid : Int)
  | flushAll
  deriving Repr, DecidableEq

/-- One public operation applied to the pool, result discarded. -/
def stepB (s : BufferPoolManager) : Op → BufferPoolManager
  | .fetch pid => (s.fetchPage pid).2
  | .newp => (s.newPage).2
  | .unpin pid d => (s.unpinPage pid d).2
  | .flush pid => (s.flushPage pid).2
  | .del pid => (s.deletePage pid).2
  | .flushAll => s.flushAllPages

/-- A sequence of public operations applied to the pool. -/
def runB (s : BufferPoolManager) : List Op → BufferPoolManager
  | [] => s
  | op :: ops => runB (stepB s op) ops

/-- A trace is allocation-respecting when every fetched page id was already
handed out by the allocator at the time of the fetch.  Fetching a
never-allocated id plants a page-table entry that a later `NewPage` of the
same id silently overwrites, which is exactly the corner the invariant
claims exclude. -/
def Valid (s : BufferPoolManager) : List Op → Prop
  | [] => True
  | op :: ops =>
    (match op with
     | .fetch pid => pid < s.disk.next_page_id
     | _ => True) ∧ Valid (stepB s op) ops

/-! ### Library lemmas about association lists and list updates -/

theorem keysA_cons {α : Type} (k₁ : Int) (v₁ : α) (l : List (Int × α)) :
    keysA ((k₁, v₁) :: l) = k₁ :: keysA l := rfl

theorem mem_keysA {α : Type} (k : Int) (l : List (Int × α)) :
    k ∈ keysA l ↔ ∃ v, (k, v) ∈ l := by
  induction l with
  | nil => simp [keysA]
  | cons e rest ih =>
    obtain ⟨k₁, v₁⟩ := e
    rw [keysA_cons]
    constructor
    · intro h
      rcases List.mem_cons.mp h with rfl | h
      · exact ⟨v₁, List.mem_cons_self _ _⟩
      · obtain ⟨v, hv⟩ := ih.mp h
        exact ⟨v, List.mem_cons_of_mem _ hv⟩
    · rintro ⟨v, hv⟩
      rcases List.mem_cons.mp hv with hv | hv
      · rw [show k = k₁ from congrArg Prod.fst hv]
        exact List.mem_cons_self _ _
      · exact List.mem_cons_of_mem _ (ih.mpr ⟨v, hv⟩)

theorem lookupA_eq_none {α : Type} (k : Int) :
    ∀ l : List (Int × α), lookupA k l = none ↔ k ∉ keysA l := by
  intro l
  induction l with
  | nil => simp [lookupA, keysA]
  | cons e rest ih =>
    obtain ⟨k₁, v₁⟩ := e
    rw [keysA_cons]
    by_cases hk : k₁ = k
    · subst hk
      simp [lookupA]
    · rw [lookupA, if_neg hk, ih, List.mem_cons]
      constructor
      · intro h hor
        rcases hor with hor | hor
        · exact hk hor.symm
        · exact h hor
      · intro h hmem
        exact h (Or.inr hmem)

theorem mem_of_lookupA {α : Type} (k : Int) {v : α} :
    ∀ {l : List (Int × α)}, lookupA k l = some v → (k, v) ∈ l := by
  intro l
  induction l with
  | nil => simp [lookupA]
  | cons e rest ih =>
    obtain ⟨k₁, v₁⟩ := e
    by_cases hk : k₁ = k
    · subst hk
      rw [lookupA, if_pos rfl]
      intro h
      rw [show v₁ = v from Option.some.inj h]
      exact List.mem_cons_self _ _
    · rw [lookupA, if_neg hk]
      exact fun h => List.mem_cons_of_mem _ (ih h)

theorem insertA_of_not_mem {α : Type} (k : Int) (v : α) :
    ∀ {l : List (Int × α)}, k ∉ keysA l → insertA k v l = l ++ [(k, v)] := by
  intro l
  induction l with
  | nil => intro _; rfl
  | cons e rest ih =>
    obtain ⟨k₁, v₁⟩ := e
    intro hk
    rw [keysA_cons, List.mem_cons] at hk
    push_neg at hk
    rw [insertA, if_neg (fun h => hk.1 h.symm), ih hk.2, List.cons_append]

theorem eraseA_sublist {α : Type} (k : Int) :
    ∀ l : List (Int × α), (eraseA k l).Sublist l := by
  intro l
  induction l with
  | nil => simp [eraseA]
  | cons e rest ih =>
    obtain ⟨k₁, v₁⟩ := e
    rw [eraseA]
    by_cases hk : k₁ = k
    · rw [if_pos hk]
      exact List.sublist_cons_self _ _
    · rw [if_neg hk]
      exact ih.cons₂ _

theorem length_eraseA_of_mem {α : Type} (k : Int) :
    ∀ {l : List (Int × α)}, k ∈ keysA l → (eraseA k l).length + 1 = l.length := by
  intro l
  induction l with
  | nil => simp [keysA]
  | cons e rest ih =>
    obtain ⟨k₁, v₁⟩ := e
    intro hk
    rw [eraseA]
    by_cases h : k₁ = k
    · rw [if_pos h]
      rfl
    · rw [keysA_cons, List.mem_cons] at hk
      rcases hk with hk | hk
      · exact absurd hk.symm h
      · rw [if_neg h, List.length_cons, List.length_cons, ih hk]

theorem mem_eraseA_iff {α : Type} (k : Int) :
    ∀ {l : List (Int × α)}, (keysA l).Nodup →
      ∀ e : Int × α, e ∈ eraseA k l ↔ e ∈ l ∧ e.1 ≠ k := by
  intro l
  induction l with
  | nil => simp [eraseA]
  | cons e₁ rest ih =>
    obtain ⟨k₁, v₁⟩ := e₁
    intro hnd e
    rw [keysA_cons, List.nodup_cons] at hnd
    rw [eraseA]
    by_cases h : k₁ = k
    · subst h
      rw [if_pos rfl]
      constructor
      · intro he
        refine ⟨List.mem_cons_of_mem _ he, fun hek => ?_⟩
        apply hnd.1
        rw [← hek]
        exact (mem_keysA e.1 rest).mpr ⟨e.2, by rwa [Prod.mk.eta]⟩
      · rintro ⟨he, hek⟩
        rcases List.mem_cons.mp he with rfl | he
        · exact absurd rfl hek
        · exact he
    · rw [if_neg h, List.mem_cons, List.mem_cons, ih hnd.2 e]
      constructor
      · rintro (rfl | ⟨he, hek⟩)
        · exact ⟨Or.inl rfl, h⟩
        · exact ⟨Or.inr he, hek⟩
      · rintro ⟨rfl | he, hek⟩
        · exact Or.inl rfl
        · exact Or.inr ⟨he, hek⟩

theorem getD_set_self {α : Type} (a d : α) :
    ∀ (l : List α) (i : Nat), i < l.length → (l.set i a).getD i d = a := by
  intro l
  induction l with
  | nil => simp
  | cons x rest ih =>
    intro i hi
    cases i with
    | zero => simp
    | succ j => simpa using ih j (by simpa using hi)

theorem getD_set_ne {α : Type} (a d : α) :
    ∀ (l : List α) (i j : Nat), i ≠ j → (l.set i a).getD j d = l.getD j d := by
  intro l
  induction l with
  | nil => simp
  | cons x rest ih =>
    intro i j hij
    cases i with
    | zero =>
      cases j with
      | zero => exact absurd rfl hij
      | succ j' => simp
    | succ i' =>
      cases j with
      | zero => simp
      | succ j' => simpa using ih i' j' (fun h => hij (by rw [h]))

/-! ### Replacer facts -/

theorem LRUReplacer.victim_of_nil {r : LRUReplacer} (h : r.lru_list = []) :
    r.victim = (none, r) := by
  unfold victim
  rw [h]
  rfl

theorem LRUReplacer.victim_of_concat {r : LRUReplacer} {l : List Nat} {v : Nat}
    (h : r.lru_list = l ++ [v]) : r.victim = (some v, ⟨l⟩) := by
  unfold victim
  rw [h, List.getLast?_concat]
  simp [List.dropLast_concat]

theorem LRUReplacer.victim_fst_some {r : LRUReplacer} {v : Nat}
    (h : (r.victim).1 = some v) : r.lru_list.getLast? = some v := by
  unfold victim at h
  rcases hg : r.lru_list.getLast? with _ | w <;> rw [hg] at h
  · simp at h
  · simpa using h

theorem LRUReplacer.victim_snd {r : LRUReplacer} {v : Nat}
    (h : (r.victim).1 = some v) : (r.victim).2.lru_list = r.lru_list.dropLast := by
  have hg := victim_fst_some h
  unfold victim
  rw [hg]

theorem LRUReplacer.unpin_of_mem {r : LRUReplacer} {f : Nat} (h : f ∈ r.lru_list) :
    r.unpin f = r := by
  unfold unpin
  rw [if_pos h]

theorem LRUReplacer.unpin_of_not_mem {r : LRUReplacer} {f : Nat} (h : f ∉ r.lru_list) :
    (r.unpin f).lru_list = f :: r.lru_list := by
  unfold unpin
  rw [if_neg h]

/-! ### Recency instrumentation for replacer traces

Running a trace of replacer operations alongside a ghost clock records, for
every frame, the tick of the unpin that most recently inserted it into the
tracked set.  (An unpin of an already-tracked frame does nothing in the
source, so it does not refresh recency.)  The invariant `TInv` states that
the tracked list is strictly ordered by that recency, most recent first —
the formal content of "the list is ordered by last-unpin time". -/

structure TimedReplacer where
  rep : LRUReplacer
  time : Nat → Nat
  clock : Nat

/-- The instrumented empty replacer: nothing tracked, no recorded unpins. -/
def tinit : TimedReplacer := ⟨LRUReplacer.empty, fun _ => 0, 0⟩

/-- One instrumented step: perform the operation; an unpin that inserts an
untracked frame stamps it with the current tick. -/
def tstep (t : TimedReplacer) (op : LRUReplacer.ROp) : TimedReplacer :=
  { rep := t.rep.rstep op
    time :=
      match op with
      | .unpin f =>
        if f ∈ t.rep.lru_list then t.time else Function.update t.time f (t.clock + 1)
      | _ => t.time
    clock := t.clock + 1 }

/-- An instrumented trace. -/
def trun (t : TimedReplacer) : List LRUReplacer.ROp → TimedReplacer
  | [] => t
  | op :: ops => trun (tstep t op) ops

/-- Tick of the unpin that most recently inserted `f` into the tracked set
after running `ops` from the empty replacer (`0` = never inserted). -/
def lastUnpin (ops : List LRUReplacer.ROp) (f : Nat) : Nat := (trun tinit ops).time f

theorem trun_rep (ops : List LRUReplacer.ROp) :
    ∀ t : TimedReplacer, (trun t ops).rep = LRUReplacer.rrun t.rep ops := by
  induction ops with
  | nil => intro t; rfl
  | cons op ops ih =>
    intro t
    rw [trun, LRUReplacer.rrun, ih]
    rfl

/-- The recency invariant: the tracked list is strictly ordered by recorded
last-unpin tick (most recent at the front), and all recorded ticks are in
the past. -/
def TInv (t : TimedReplacer) : Prop :=
  t.rep.lru_list.Pairwise (fun a b => t.time b < t.time a) ∧
  ∀ f ∈ t.rep.lru_list, t.time f ≤ t.clock

theorem tinv_init : TInv tinit := by
  constructor
  · exact List.Pairwise.nil
  · intro f hf
    simp [tinit, LRUReplacer.empty] at hf

theorem tinv_sublist {t : TimedReplacer} {l : List Nat}
    (hsub : l.Sublist t.rep.lru_list) (h : TInv t) :
    l.Pairwise (fun a b => t.time b < t.time a) ∧ ∀ f ∈ l, t.time f ≤ t.clock + 1 :=
  ⟨h.1.sublist hsub, fun f hf => Nat.le_succ_of_le (h.2 f (hsub.mem hf))⟩

theorem tinv_step {t : TimedReplacer} (op : LRUReplacer.ROp) (h : TInv t) :
    TInv (tstep t op) := by
  obtain ⟨hp, hb⟩ := h
  cases op with
  | unpin f =>
    by_cases hf : f ∈ t.rep.lru_list
    · constructor
      · simpa [tstep, LRUReplacer.rstep, LRUReplacer.unpin_of_mem hf, hf] using hp
      · intro g hg
        have hg₁ : g ∈ t.rep.lru_list := by
          simpa [tstep, LRUReplacer.rstep, LRUReplacer.unpin_of_mem hf] using hg
        simp only [tstep, if_pos hf]
        exact Nat.le_succ_of_le (hb g hg₁)
    · have hl : (tstep t (.unpin f)).rep.lru_list = f :: t.rep.lru_list := by
        simp only [tstep, LRUReplacer.rstep]
        exact LRUReplacer.unpin_of_not_mem hf
      have ht : (tstep t (.unpin f)).time = Function.update t.time f (t.clock + 1) := by
        simp [tstep, hf]
      constructor
      · rw [hl, ht, List.pairwise_cons]
        constructor
        · intro g hg
          have hgf : g ≠ f := fun hgf => hf (hgf ▸ hg)
          rw [Function.update_noteq hgf, Function.update_same]
          exact Nat.lt_succ_of_le (hb g hg)
        · refine hp.imp_of_mem ?_
          intro a b ha hb'
          have haf : a ≠ f := fun he => hf (he ▸ ha)
          have hbf : b ≠ f := fun he => hf (he ▸ hb')
          rw [Function.update_noteq haf, Function.update_noteq hbf]
          exact id
      · intro g hg
        rw [hl] at hg
        rw [ht]
        simp only [tstep]
        rcases List.mem_cons.mp hg with rfl | hg
        · rw [Function.update_same]
        · have hgf : g ≠ f := fun hgf => hf (hgf ▸ hg)
          rw [Function.update_noteq hgf]
          exact Nat.le_succ_of_le (hb g hg)
  | pin f =>
    have hsub : ((tstep t (.pin f)).rep.lru_list).Sublist t.rep.lru_list := by
      simp only [tstep, LRUReplacer.rstep, LRUReplacer.pin]
      exact List.erase_sublist _ _
    exact tinv_sublist hsub ⟨hp, hb⟩
  | victim =>
    have hsub : ((tstep t .victim).rep.lru_list).Sublist t.rep.lru_list := by
      simp only [tstep, LRUReplacer.rstep, LRUReplacer.victim]
      rcases hg : t.rep.lru_list.getLast? with _ | w
      · exact List.Sublist.refl _
      · exact List.dropLast_sublist _
    exact tinv_sublist hsub ⟨hp, hb⟩

theorem tinv_run (ops : List LRUReplacer.ROp) :
    ∀ t : TimedReplacer, TInv t → TInv (trun t ops) := by
  induction ops with
  | nil => exact fun t h => h
  | cons op ops ih => exact fun t h => ih _ (tinv_step op h)

/-- In a list strictly ordered by descending time, the last element has the
strictly smallest time among all others. -/
theorem time_getLast_min {time : Nat → Nat} :
    ∀ {l : List Nat} {v : Nat}, l.Pairwise (fun a b => time b < time a) →
      l.getLast? = some v → ∀ g ∈ l, g ≠ v → time v < time g := by
  intro l
  induction l with
  | nil => intro v _ h; simp at h
  | cons a rest ih =>
    intro v hp hv g hg hgv
    rcases List.mem_cons.mp hg with rfl | hg
    · cases rest with
      | nil =>
        simp [List.getLast?] at hv
        exact absurd hv.symm (fun he => hgv he.symm)
      | cons b rest' =>
        rw [List.getLast?_cons_cons] at hv
        have hvmem : v ∈ b :: rest' := by
          have h₂ := List.dropLast_append_getLast? v (Option.mem_def.mpr hv)
          rw [← h₂]
          exact List.mem_append.mpr (Or.inr (by simp))
        exact (List.pairwise_cons.mp hp).1 v hvmem
    · cases rest with
      | nil => simp at hg
      | cons b rest' =>
        rw [List.getLast?_cons_cons] at hv
        exact ih (List.pairwise_cons.mp hp).2 hv g hg hgv

/-! ### Claims L1/L2 about the standalone replacer -/

/-- C4, counterexample.  The claim asserts that after
`unpin(a), unpin(b), pin(a), unpin(c)` on distinct frames (here
`a = 0, b = 1, c = 2`) successive `victim()` calls return `b`, then `c`,
then `a`.  In the code, `pin(a)` removes `a` from tracking and nothing
re-inserts it, so the third `victim()` call finds the replacer empty and
fails; the observed sequence is `[some b, some c, none]`, not
`[some b, some c, some a]`. -/
theorem c4_l2_counterexample :
    LRUReplacer.victims
        (LRUReplacer.rrun LRUReplacer.empty [.unpin 0, .unpin 1, .pin 0, .unpin 2]) 3 ≠
      [some 1, some 2, some 0] := by
  decide

/-- C4, amended.  For the standalone LRU replacer started empty, after
`unpin(a), unpin(b), pin(a), unpin(c)` on three distinct frames, successive
`victim()` calls return `b`, then `c`, and then fail (`a` is no longer
tracked: `pin(a)` removed it and it was never unpinned again). -/
theorem c4_victims_after_pin (a b c : Nat) (hab : a ≠ b) (hac : a ≠ c) (hbc : b ≠ c) :
    LRUReplacer.victims
        (LRUReplacer.rrun LRUReplacer.empty [.unpin a, .unpin b, .pin a, .unpin c]) 3 =
      [some b, some c, none] := by
  have h₁ : LRUReplacer.rrun LRUReplacer.empty [.unpin a, .unpin b, .pin a, .unpin c] =
      ⟨[c, b]⟩ := by
    simp [LRUReplacer.rrun, LRUReplacer.rstep, LRUReplacer.unpin, LRUReplacer.pin,
      LRUReplacer.empty, List.erase_cons, Ne.symm hab, Ne.symm hbc, hbc, hac, Ne.symm hac]
  rw [h₁]
  rfl

/-- C4, witness for the amended statement at `a = 0`, `b = 1`, `c = 2`. -/
theorem c4_victims_after_pin_witness :
    ((0 : Nat) ≠ 1 ∧ (0 : Nat) ≠ 2 ∧ (1 : Nat) ≠ 2) ∧
      LRUReplacer.victims
          (LRUReplacer.rrun LRUReplacer.empty [.unpin 0, .unpin 1, .pin 0, .unpin 2]) 3 =
        [some 1, some 2, none] :=
  ⟨⟨by decide, by decide, by decide⟩,
    c4_victims_after_pin 0 1 2 (by decide) (by decide) (by decide)⟩

/-- C5.  The standalone LRU replacer meets its contract: `unpin` of a
tracked frame does nothing; `unpin` of an untracked frame inserts it at the
MRU end (the list front); `victim` on an empty replacer fails; a successful
`victim` removes and returns a tracked frame whose last insertion by `unpin`
is strictly older than that of every other tracked frame; and from an empty
replacer, `unpin(a), unpin(b), unpin(c)` on distinct frames yields the
victim order `a, b, c` (and then failure). -/
theorem c5_replacer_contract :
    (∀ (r : LRUReplacer) (f : Nat), f ∈ r.lru_list → r.unpin f = r) ∧
    (∀ (r : LRUReplacer) (f : Nat), f ∉ r.lru_list →
      (r.unpin f).lru_list = f :: r.lru_list) ∧
    (∀ r : LRUReplacer, r.lru_list = [] → r.victim = (none, r)) ∧
    (∀ (ops : List LRUReplacer.ROp) (v : Nat),
      ((LRUReplacer.rrun LRUReplacer.empty ops).victim).1 = some v →
      v ∈ (LRUReplacer.rrun LRUReplacer.empty ops).lru_list ∧
      ((LRUReplacer.rrun LRUReplacer.empty ops).victim).2.lru_list =
        (LRUReplacer.rrun LRUReplacer.empty ops).lru_list.dropLast ∧
      ∀ g ∈ (LRUReplacer.rrun LRUReplacer.empty ops).lru_list, g ≠ v →
        lastUnpin ops v < lastUnpin ops g) ∧
    (∀ a b c : Nat, a ≠ b → a ≠ c → b ≠ c →
      LRUReplacer.victims
          (LRUReplacer.rrun LRUReplacer.empty [.unpin a, .unpin b, .unpin c]) 4 =
        [some a, some b, some c, none]) := by
  refine ⟨fun r f h => LRUReplacer.unpin_of_mem h,
    fun r f h => LRUReplacer.unpin_of_not_mem h,
    fun r h => LRUReplacer.victim_of_nil h, ?_, ?_⟩
  · intro ops v hv
    have hg := LRUReplacer.victim_fst_some hv
    obtain ⟨hp, hb⟩ := tinv_run ops tinit tinv_init
    have hrep₂ : (trun tinit ops).rep = LRUReplacer.rrun LRUReplacer.empty ops :=
      trun_rep ops tinit
    rw [hrep₂] at hp
    have hmem : v ∈ (LRUReplacer.rrun LRUReplacer.empty ops).lru_list := by
      have h₂ := List.dropLast_append_getLast? v (Option.mem_def.mpr hg)
      rw [← h₂]
      exact List.mem_append.mpr (Or.inr (by simp))
    exact ⟨hmem, LRUReplacer.victim_snd hv,
      fun g hgmem hgv => time_getLast_min hp hg g hgmem hgv⟩
  · intro a b c hab hac hbc
    have h₁ : LRUReplacer.rrun LRUReplacer.empty [.unpin a, .unpin b, .unpin c] =
        ⟨[c, b, a]⟩ := by
      simp [LRUReplacer.rrun, LRUReplacer.rstep, LRUReplacer.unpin, LRUReplacer.empty,
        Ne.symm hab, Ne.symm hbc, Ne.symm hac]
    rw [h₁]
    rfl

/-- C5, witness: the no-op unpin, the MRU insertion, the empty-victim case,
the recency property of a successful victim, and the `a, b, c` victim order
at frames `0, 1, 2`. -/
theorem c5_replacer_contract_witness :
    LRUReplacer.unpin ⟨[3]⟩ 3 = ⟨[3]⟩ ∧
    (LRUReplacer.unpin ⟨[3]⟩ 5).lru_list = [5, 3] ∧
    LRUReplacer.victim ⟨[]⟩ = (none, ⟨[]⟩) ∧
    (1 ∈ (LRUReplacer.rrun LRUReplacer.empty [.unpin 1, .unpin 2]).lru_list ∧
      ((LRUReplacer.rrun LRUReplacer.empty [.unpin 1, .unpin 2]).victim).2.lru_list =
        (LRUReplacer.rrun LRUReplacer.empty [.unpin 1, .unpin 2]).lru_list.dropLast ∧
      ∀ g ∈ (LRUReplacer.rrun LRUReplacer.empty [.unpin 1, .unpin 2]).lru_list, g ≠ 1 →
        lastUnpin [.unpin 1, .unpin 2] 1 < lastUnpin [.unpin 1, .unpin 2] g) ∧
    LRUReplacer.victims (LRUReplacer.rrun LRUReplacer.empty [.unpin 0, .unpin 1, .unpin 2]) 4 =
      [some 0, some 1, some 2, none] :=
  ⟨c5_replacer_contract.1 ⟨[3]⟩ 3 (by decide),
    c5_replacer_contract.2.1 ⟨[3]⟩ 5 (by decide),
    c5_replacer_contract.2.2.1 ⟨[]⟩ rfl,
    c5_replacer_contract.2.2.2.1 [.unpin 1, .unpin 2] 1 (by decide),
    c5_replacer_contract.2.2.2.2 0 1 2 (by decide) (by decide) (by decide)⟩

/-! ### Claim about byte-level disk reads -/

theorem getD_replicate_zero (r : Nat) : ∀ i : Nat, (List.replicate r (0 : Nat)).getD i 0 = 0 := by
  induction r with
  | zero => intro i; rfl
  | succ n ih =>
    intro i
    cases i with
    | zero => rfl
    | succ j => simpa [List.replicate] using ih j

/-- C8.  For every non-negative page id, `ReadPage` fills its buffer with
exactly `PAGE_SIZE` bytes: the file bytes at offset `page_id * PAGE_SIZE`,
with zeros for every position at or beyond end-of-file (so the whole buffer
is zeros when the offset is at or past the end, and the tail is zero-filled
on a partial read); no failure occurs in these cases. -/
theorem c8_read_page_zero_fill (file : List Nat) (page_id : Nat) :
    (readPageBytes file page_id).length = PAGE_SIZE ∧
    (∀ i, i < PAGE_SIZE →
      (readPageBytes file page_id).getD i 0 =
        if page_id * PAGE_SIZE + i < file.length then
          file.getD (page_id * PAGE_SIZE + i) 0
        else 0) ∧
    (file.length ≤ page_id * PAGE_SIZE →
      readPageBytes file page_id = List.replicate PAGE_SIZE 0) := by
  have hgotlen : ((file.drop (page_id * PAGE_SIZE)).take PAGE_SIZE).length =
      min PAGE_SIZE (file.length - page_id * PAGE_SIZE) := by
    rw [List.length_take, List.length_drop]
  have hgotle : ((file.drop (page_id * PAGE_SIZE)).take PAGE_SIZE).length ≤ PAGE_SIZE := by
    rw [hgotlen]; exact Nat.min_le_left _ _
  refine ⟨?_, ?_, ?_⟩
  · rw [readPageBytes, List.length_append, List.length_replicate]
    exact Nat.add_sub_cancel' hgotle
  · intro i hi
    rw [readPageBytes]
    by_cases hcase : i < ((file.drop (page_id * PAGE_SIZE)).take PAGE_SIZE).length
    · have hoffi : page_id * PAGE_SIZE + i < file.length := by
        rw [hgotlen] at hcase
        have h₂ : i < file.length - page_id * PAGE_SIZE :=
          lt_of_lt_of_le hcase (Nat.min_le_right _ _)
        omega
      rw [List.getD_append _ _ _ _ hcase, List.getD_eq_getElem _ _ hcase, if_pos hoffi,
        List.getD_eq_getElem _ _ hoffi]
      simp
    · have hge := Nat.le_of_not_lt hcase
      rw [List.getD_append_right _ _ _ _ hge]
      rw [getD_replicate_zero]
      have hout : ¬ page_id * PAGE_SIZE + i < file.length := by
        rw [hgotlen] at hge
        have h₂ : file.length - page_id * PAGE_SIZE ≤ i := by
          by_cases hm : PAGE_SIZE ≤ file.length - page_id * PAGE_SIZE
          · rw [Nat.min_eq_left hm] at hge; omega
          · rw [Nat.min_eq_right (Nat.le_of_not_le hm)] at hge; exact hge
        omega
      rw [if_neg hout]
  · intro hle
    rw [readPageBytes]
    have hnil : file.drop (page_id * PAGE_SIZE) = [] := List.drop_eq_nil_of_le hle
    rw [hnil]
    rfl

/-- C8, witness: a three-byte file read at page 0 delivers the three bytes
followed by zeros, and page 1 reads as all zeros. -/
theorem c8_read_page_zero_fill_witness :
    (readPageBytes [7, 8, 9] 0).getD 1 0 =
      (if 0 * PAGE_SIZE + 1 < ([7, 8, 9] : List Nat).length then
        ([7, 8, 9] : List Nat).getD (0 * PAGE_SIZE + 1) 0 else 0) ∧
    (readPageBytes [7, 8, 9] 0).getD 3 0 =
      (if 0 * PAGE_SIZE + 3 < ([7, 8, 9] : List Nat).length then
        ([7, 8, 9] : List Nat).getD (0 * PAGE_SIZE + 3) 0 else 0) ∧
    readPageBytes [7, 8, 9] 1 = List.replicate PAGE_SIZE 0 :=
  ⟨(c8_read_page_zero_fill [7, 8, 9] 0).2.1 1 (by decide),
    (c8_read_page_zero_fill [7, 8, 9] 0).2.1 3 (by decide),
    (c8_read_page_zero_fill [7, 8, 9] 1).2.2 (by decide)⟩

/-! ### State-update helper lemmas -/

theorem set_of_le {α : Type} : ∀ (l : List α) (i : Nat) (a : α), l.length ≤ i → l.set i a = l := by
  intro l
  induction l with
  | nil => intro i a _; rfl
  | cons x rest ih =>
    intro i a hi
    cases i with
    | zero => simp at hi
    | succ j =>
      rw [List.set_cons_succ]
      rw [ih j a (by simpa using hi)]

namespace BufferPoolManager

theorem getPage_setPage_self {s : BufferPoolManager} {fid : Nat} (p : Page)
    (h : fid < s.pages.length) : (s.setPage fid p).getPage fid = p :=
  getD_set_self p defaultPage s.pages fid h

theorem getPage_setPage_ne {s : BufferPoolManager} {fid g : Nat} (p : Page)
    (h : fid ≠ g) : (s.setPage fid p).getPage g = s.getPage g :=
  getD_set_ne p defaultPage s.pages fid g h

theorem getPage_setPage_cases (s : BufferPoolManager) (fid g : Nat) (p : Page) :
    (s.setPage fid p).getPage g = p ∨ (s.setPage fid p).getPage g = s.getPage g := by
  by_cases hg : fid = g
  · subst hg
    by_cases hlt : fid < s.pages.length
    · exact Or.inl (getPage_setPage_self p hlt)
    · right
      unfold getPage setPage
      rw [set_of_le _ _ _ (Nat.le_of_not_lt hlt)]
  · exact Or.inr (getPage_setPage_ne p hg)

theorem length_setPage (s : BufferPoolManager) (fid : Nat) (p : Page) :
    (s.setPage fid p).pages.length = s.pages.length := by
  unfold setPage
  exact List.length_set _ _ _

end BufferPoolManager

theorem lookupA_insertA_self {α : Type} (k : Int) (v : α) :
    ∀ l : List (Int × α), lookupA k (insertA k v l) = some v := by
  intro l
  induction l with
  | nil => simp [insertA, lookupA]
  | cons e rest ih =>
    obtain ⟨k₁, v₁⟩ := e
    rw [insertA]
    by_cases h : k₁ = k
    · rw [if_pos h, lookupA, if_pos rfl]
    · rw [if_neg h, lookupA, if_neg h]
      exact ih

theorem lookupA_eraseA_self {α : Type} (k : Int) {l : List (Int × α)}
    (h : (keysA l).Nodup) : lookupA k (eraseA k l) = none := by
  rw [lookupA_eq_none, mem_keysA]
  rintro ⟨v, hv⟩
  exact ((mem_eraseA_iff k h (k, v)).mp hv).2 rfl

theorem DiskManager.writePage_next (d : DiskManager) (pid : Int) (img : PageImage) :
    (d.writePage pid img).next_page_id = d.next_page_id := by
  unfold writePage
  split <;> rfl

theorem DiskManager.writePage_flushes (d : DiskManager) (pid : Int) (img : PageImage)
    (h : 0 ≤ pid) : (d.writePage pid img).num_flushes = d.num_flushes + 1 := by
  unfold writePage
  rw [if_pos h]

/-! ### Facts about `FindFreeFrame` -/

namespace BufferPoolManager

theorem findFreeFrame_free {s : BufferPoolManager} {f : Nat} {rest : List Nat}
    (h : s.free_list = f :: rest) :
    s.findFreeFrame = some (f, { s with free_list := rest }) := by
  unfold findFreeFrame
  rw [h]

theorem findFreeFrame_none {s : BufferPoolManager} (h₁ : s.free_list = [])
    (h₂ : s.replacer.lru_list = []) : s.findFreeFrame = none := by
  unfold findFreeFrame
  rw [h₁, LRUReplacer.victim_of_nil h₂]

theorem findFreeFrame_victim {s : BufferPoolManager} {l : List Nat} {v : Nat}
    (h₁ : s.free_list = []) (h₂ : s.replacer.lru_list = l ++ [v]) :
    s.findFreeFrame = some (v,
      ({ s with
          replacer := ⟨l⟩
          disk :=
            if (s.getPage v).is_dirty then
              s.disk.writePage (s.getPage v).data.header.page_id (s.getPage v).data
            else s.disk
          page_table :=
            eraseA (s.getPage v).data.header.page_id s.page_table }).setPage v defaultPage) := by
  unfold findFreeFrame
  rw [h₁, LRUReplacer.victim_of_concat h₂]

theorem findFreeFrame_preserves {s : BufferPoolManager} {fid : Nat} {s₁ : BufferPoolManager}
    (h : s.findFreeFrame = some (fid, s₁)) :
    s₁.pages.length = s.pages.length ∧
    s₁.disk.next_page_id = s.disk.next_page_id ∧
    s₁.pool_size = s.pool_size := by
  rcases hfl : s.free_list with _ | ⟨f, rest⟩
  · rcases hrl : s.replacer.lru_list with _ | ⟨a, l'⟩
    · rw [findFreeFrame_none hfl hrl] at h
      exact Option.noConfusion h
    · obtain ⟨l, v, hlv⟩ : ∃ l v, s.replacer.lru_list = l ++ [v] := by
        rcases List.eq_nil_or_concat (s.replacer.lru_list) with he | ⟨l, v, he⟩
        · rw [he] at hrl; exact List.noConfusion hrl
        · exact ⟨l, v, by rw [he, List.concat_eq_append]⟩
      rw [findFreeFrame_victim hfl hlv] at h
      injection h with h₂
      cases h₂
      refine ⟨length_setPage _ _ _, ?_, rfl⟩
      show ((if _ then _ else _ : DiskManager)).next_page_id = _
      split
      · exact DiskManager.writePage_next _ _ _
      · rfl
  · rw [findFreeFrame_free hfl] at h
    injection h with h₂
    cases h₂
    exact ⟨rfl, rfl, rfl⟩

end BufferPoolManager

/-! ### Branch characterizations of the public operations -/

namespace BufferPoolManager

theorem fetchPage_hit {s : BufferPoolManager} {pid : Int} {fid : Nat}
    (h : lookupA pid s.page_table = some fid) :
    s.fetchPage pid = (some fid,
      { s with
          pages := s.pages.set fid
            { s.getPage fid with pin_count := (s.getPage fid).pin_count + 1 }
          replacer := s.replacer.pin fid }) := by
  unfold fetchPage
  rw [h]
  rfl

theorem fetchPage_miss_none {s : BufferPoolManager} {pid : Int}
    (h : lookupA pid s.page_table = none) (hf : s.findFreeFrame = none) :
    s.fetchPage pid = (none, s) := by
  unfold fetchPage
  rw [h, hf]

theorem fetchPage_miss_some {s : BufferPoolManager} {pid : Int} {fid : Nat}
    {s₁ : BufferPoolManager} (h : lookupA pid s.page_table = none)
    (hf : s.findFreeFrame = some (fid, s₁)) :
    s.fetchPage pid = (some fid,
      { s₁ with
          pages := s₁.pages.set fid
            ⟨{ s₁.disk.readPage pid with
                header := { (s₁.disk.readPage pid).header with page_id := pid } }, false, 1⟩
          page_table := insertA pid fid s₁.page_table
          replacer := s₁.replacer.pin fid }) := by
  unfold fetchPage
  rw [h, hf]
  rfl

theorem newPage_none {s : BufferPoolManager} (hf : s.findFreeFrame = none) :
    s.newPage = (none, s) := by
  unfold newPage
  rw [hf]

theorem newPage_some {s : BufferPoolManager} {fid : Nat} {s₁ : BufferPoolManager}
    (hf : s.findFreeFrame = some (fid, s₁)) :
    s.newPage = (some (s₁.disk.next_page_id, fid),
      { s₁ with
          pages := s₁.pages.set fid
            ⟨{ zeroImage with
                header := { zeroImage.header with page_id := s₁.disk.next_page_id } }, true, 1⟩
          page_table := insertA s₁.disk.next_page_id fid s₁.page_table
          replacer := s₁.replacer.pin fid
          disk := { s₁.disk with next_page_id := s₁.disk.next_page_id + 1 } }) := by
  unfold newPage
  rw [hf]
  rfl

theorem unpinPage_absent {s : BufferPoolManager} {pid : Int} {d : Bool}
    (h : lookupA pid s.page_table = none) : s.unpinPage pid d = (false, s) := by
  unfold unpinPage
  rw [h]

theorem unpinPage_underflow {s : BufferPoolManager} {pid : Int} {d : Bool} {fid : Nat}
    (h : lookupA pid s.page_table = some fid) (hp : (s.getPage fid).pin_count ≤ 0) :
    s.unpinPage pid d = (false, s) := by
  unfold unpinPage
  rw [h]
  simp only [if_pos hp]

theorem unpinPage_dec_zero {s : BufferPoolManager} {pid : Int} {d : Bool} {fid : Nat}
    (h : lookupA pid s.page_table = some fid) (hp : ¬ (s.getPage fid).pin_count ≤ 0)
    (hz : (s.getPage fid).pin_count - 1 = 0) :
    s.unpinPage pid d = (true,
      { s with
          pages := s.pages.set fid
            { s.getPage fid with
                pin_count := (s.getPage fid).pin_count - 1
                is_dirty := (s.getPage fid).is_dirty || d }
          replacer := s.replacer.unpin fid }) := by
  unfold unpinPage
  rw [h]
  simp only [if_neg hp, if_pos hz]
  rfl

theorem unpinPage_dec_pos {s : BufferPoolManager} {pid : Int} {d : Bool} {fid : Nat}
    (h : lookupA pid s.page_table = some fid) (hp : ¬ (s.getPage fid).pin_count ≤ 0)
    (hz : ¬ (s.getPage fid).pin_count - 1 = 0) :
    s.unpinPage pid d = (true,
      { s with
          pages := s.pages.set fid
            { s.getPage fid with
                pin_count := (s.getPage fid).pin_count - 1
                is_dirty := (s.getPage fid).is_dirty || d } }) := by
  unfold unpinPage
  rw [h]
  simp only [if_neg hp, if_neg hz]
  rfl

theorem flushPage_absent {s : BufferPoolManager} {pid : Int}
    (h : lookupA pid s.page_table = none) : s.flushPage pid = (false, s) := by
  unfold flushPage
  rw [h]

theorem flushPage_present {s : BufferPoolManager} {pid : Int} {fid : Nat}
    (h : lookupA pid s.page_table = some fid) :
    s.flushPage pid = (true,
      { s with
          disk := s.disk.writePage pid (s.getPage fid).data
          pages := s.pages.set fid { s.getPage fid with is_dirty := false } }) := by
  unfold flushPage
  rw [h]
  rfl

theorem deletePage_absent {s : BufferPoolManager} {pid : Int}
    (h : lookupA pid s.page_table = none) : s.deletePage pid = (true, s) := by
  unfold deletePage
  rw [h]

theorem deletePage_pinned {s : BufferPoolManager} {pid : Int} {fid : Nat}
    (h : lookupA pid s.page_table = some fid) (hp : 0 < (s.getPage fid).pin_count) :
    s.deletePage pid = (false, s) := by
  unfold deletePage
  rw [h]
  simp only [if_pos hp]

theorem deletePage_ok {s : BufferPoolManager} {pid : Int} {fid : Nat}
    (h : lookupA pid s.page_table = some fid) (hp : ¬ 0 < (s.getPage fid).pin_count) :
    s.deletePage pid = (true,
      { s with
          replacer := s.replacer.pin fid
          page_table := eraseA pid s.page_table
          pages := s.pages.set fid
            ⟨{ zeroImage with
                header := { zeroImage.header with page_id := INVALID_PAGE_ID } }, false, 0⟩
          free_list := s.free_list ++ [fid] }) := by
  unfold deletePage
  rw [h]
  simp only [if_neg hp]
  rfl

end BufferPoolManager

/-! ### Pin counts never go negative -/

theorem getD_replicate_self {α : Type} (a : α) (r : Nat) :
    ∀ i : Nat, (List.replicate r a).getD i a = a := by
  induction r with
  | zero => intro i; rfl
  | succ n ih =>
    intro i
    cases i with
    | zero => rfl
    | succ j => simpa [List.replicate] using ih j

theorem getD_set_cases {α : Type} (l : List α) (i j : Nat) (a d : α) :
    (l.set i a).getD j d = a ∨ (l.set i a).getD j d = l.getD j d := by
  by_cases hij : i = j
  · subst hij
    by_cases hlt : i < l.length
    · exact Or.inl (getD_set_self a d l i hlt)
    · rw [set_of_le l i a (Nat.le_of_not_lt hlt)]
      exact Or.inr rfl
  · exact Or.inr (getD_set_ne a d l i j hij)

/-- All pin counts in a frame array are non-negative. -/
def PinsNonnegL (l : List Page) : Prop := ∀ f : Nat, 0 ≤ (l.getD f defaultPage).pin_count

theorem pinsL_set {l : List Page} (hs : PinsNonnegL l) {p : Page}
    (hp : 0 ≤ p.pin_count) (fid : Nat) : PinsNonnegL (l.set fid p) := by
  intro f
  rcases getD_set_cases l fid f p defaultPage with h | h <;> rw [h]
  · exact hp
  · exact hs f

/-- General elimination principle for a successful `FindFreeFrame` call:
either the frame came off the free list, or it is the replacer's victim and
the state has gone through write-back, table erase and buffer reset. -/
theorem BufferPoolManager.findFreeFrame_elim {s : BufferPoolManager} {fid : Nat}
    {s₁ : BufferPoolManager} (h : s.findFreeFrame = some (fid, s₁)) {motive : Prop}
    (hfree : ∀ rest, s.free_list = fid :: rest → s₁ = { s with free_list := rest } → motive)
    (hvict : ∀ l, s.free_list = [] → s.replacer.lru_list = l ++ [fid] →
      s₁ = ({ s with
          replacer := ⟨l⟩
          disk :=
            if (s.getPage fid).is_dirty then
              s.disk.writePage (s.getPage fid).data.header.page_id (s.getPage fid).data
            else s.disk
          page_table :=
            eraseA (s.getPage fid).data.header.page_id s.page_table }).setPage fid
          defaultPage → motive) : motive := by
  rcases hfl : s.free_list with _ | ⟨f, rest⟩
  · rcases hrl : s.replacer.lru_list with _ | ⟨a, l₂⟩
    · rw [BufferPoolManager.findFreeFrame_none hfl hrl] at h
      exact Option.noConfusion h
    · obtain ⟨l, v, hlv⟩ : ∃ l v, s.replacer.lru_list = l ++ [v] := by
        rcases List.eq_nil_or_concat (s.replacer.lru_list) with he | ⟨l, v, he⟩
        · rw [he] at hrl; exact List.noConfusion hrl
        · exact ⟨l, v, by rw [he, List.concat_eq_append]⟩
      rw [BufferPoolManager.findFreeFrame_victim hfl hlv] at h
      injection h with h₂
      cases h₂
      exact hvict l hfl hlv rfl
  · rw [BufferPoolManager.findFreeFrame_free hfl] at h
    injection h with h₂
    cases h₂
    exact hfree rest hfl rfl

theorem pins_findFreeFrame {s : BufferPoolManager} {fid : Nat} {s₁ : BufferPoolManager}
    (hs : PinsNonnegL s.pages) (h : s.findFreeFrame = some (fid, s₁)) :
    PinsNonnegL s₁.pages := by
  refine BufferPoolManager.findFreeFrame_elim h ?_ ?_
  · rintro rest h₁ rfl
    exact hs
  · rintro l h₁ h₂ rfl
    exact pinsL_set hs (by decide) fid

theorem foldl_preserve {β : Type} {P : BufferPoolManager → Prop}
    {g : BufferPoolManager → β → BufferPoolManager}
    (hg : ∀ acc e, P acc → P (g acc e)) :
    ∀ (l : List β) (s : BufferPoolManager), P s → P (l.foldl g s) := by
  intro l
  induction l with
  | nil => exact fun s h => h
  | cons e rest ih => exact fun s h => ih _ (hg s e h)

theorem pins_stepB (s : BufferPoolManager) (op : Op) (hs : PinsNonnegL s.pages) :
    PinsNonnegL (stepB s op).pages := by
  cases op with
  | fetch pid =>
    show PinsNonnegL (s.fetchPage pid).2.pages
    rcases hl : lookupA pid s.page_table with _ | fid
    · rcases hff : s.findFreeFrame with _ | ⟨p⟩
      · rw [BufferPoolManager.fetchPage_miss_none hl hff]
        exact hs
      · obtain ⟨fid, s₁⟩ := p
        rw [BufferPoolManager.fetchPage_miss_some hl hff]
        exact pinsL_set (pins_findFreeFrame hs hff) (by norm_num) fid
    · rw [BufferPoolManager.fetchPage_hit hl]
      refine pinsL_set hs ?_ fid
      show (0 : Int) ≤ (s.getPage fid).pin_count + 1
      have h₃ : (0 : Int) ≤ (s.getPage fid).pin_count := hs fid
      omega
  | newp =>
    show PinsNonnegL (s.newPage).2.pages
    rcases hff : s.findFreeFrame with _ | ⟨p⟩
    · rw [BufferPoolManager.newPage_none hff]
      exact hs
    · obtain ⟨fid, s₁⟩ := p
      rw [BufferPoolManager.newPage_some hff]
      exact pinsL_set (pins_findFreeFrame hs hff) (by norm_num) fid
  | unpin pid d =>
    show PinsNonnegL (s.unpinPage pid d).2.pages
    rcases hl : lookupA pid s.page_table with _ | fid
    · rw [BufferPoolManager.unpinPage_absent hl]
      exact hs
    · by_cases hp : (s.getPage fid).pin_count ≤ 0
      · rw [BufferPoolManager.unpinPage_underflow hl hp]
        exact hs
      · have hd : 0 ≤ (s.getPage fid).pin_count - 1 := by omega
        by_cases hz : (s.getPage fid).pin_count - 1 = 0
        · rw [BufferPoolManager.unpinPage_dec_zero hl hp hz]
          exact pinsL_set hs hd fid
        · rw [BufferPoolManager.unpinPage_dec_pos hl hp hz]
          exact pinsL_set hs hd fid
  | flush pid =>
    show PinsNonnegL (s.flushPage pid).2.pages
    rcases hl : lookupA pid s.page_table with _ | fid
    · rw [BufferPoolManager.flushPage_absent hl]
      exact hs
    · rw [BufferPoolManager.flushPage_present hl]
      refine pinsL_set hs ?_ fid
      show (0 : Int) ≤ (s.getPage fid).pin_count
      exact hs fid
  | del pid =>
    show PinsNonnegL (s.deletePage pid).2.pages
    rcases hl : lookupA pid s.page_table with _ | fid
    · rw [BufferPoolManager.deletePage_absent hl]
      exact hs
    · by_cases hp : 0 < (s.getPage fid).pin_count
      · rw [BufferPoolManager.deletePage_pinned hl hp]
        exact hs
      · rw [BufferPoolManager.deletePage_ok hl hp]
        exact pinsL_set hs (by norm_num) fid
  | flushAll =>
    show PinsNonnegL (s.flushAllPages).pages
    unfold BufferPoolManager.flushAllPages
    refine foldl_preserve (P := fun b => PinsNonnegL b.pages) ?_ s.page_table s hs
    intro acc e hacc
    dsimp only
    split
    · refine pinsL_set hacc ?_ e.2
      show (0 : Int) ≤ (acc.getPage e.2).pin_count
      exact hacc e.2
    · exact hacc

theorem pins_runB (ops : List Op) :
    ∀ s : BufferPoolManager, PinsNonnegL s.pages → PinsNonnegL (runB s ops).pages := by
  induction ops with
  | nil => exact fun s h => h
  | cons op ops ih => exact fun s h => ih _ (pins_stepB s op h)

theorem pins_mk' (n : Nat) (d : DiskManager) :
    PinsNonnegL (BufferPoolManager.mk' n d).pages := by
  intro f
  show 0 ≤ ((List.replicate n defaultPage).getD f defaultPage).pin_count
  rw [getD_replicate_self]
  decide

/-! ### Claims about `UnpinPage` -/

/-- C10.  Whenever `unpin` returns false — the page is absent or its pin
count is already zero — the buffer pool state is completely unchanged: no
dirty flag, pin count, page-table entry, free-list entry or replacer entry
is touched, even when `is_dirty` is true. -/
theorem c10_unpin_false_unchanged (s : BufferPoolManager) (pid : Int) (d : Bool)
    (h : (s.unpinPage pid d).1 = false) : (s.unpinPage pid d).2 = s := by
  rcases hl : lookupA pid s.page_table with _ | fid
  · rw [BufferPoolManager.unpinPage_absent hl]
  · by_cases hp : (s.getPage fid).pin_count ≤ 0
    · rw [BufferPoolManager.unpinPage_underflow hl hp]
    · by_cases hz : (s.getPage fid).pin_count - 1 = 0
      · rw [BufferPoolManager.unpinPage_dec_zero hl hp hz] at h
        exact absurd h (by simp)
      · rw [BufferPoolManager.unpinPage_dec_pos hl hp hz] at h
        exact absurd h (by simp)

/-- C10, witness: unpinning a page absent from a fresh pool returns false
and leaves the pool exactly as it was, even with `is_dirty = true`. -/
theorem c10_unpin_false_unchanged_witness :
    (((BufferPoolManager.mk' 1 DiskManager.init).unpinPage 0 true).1 = false) ∧
    ((BufferPoolManager.mk' 1 DiskManager.init).unpinPage 0 true).2 =
      BufferPoolManager.mk' 1 DiskManager.init :=
  ⟨rfl, c10_unpin_false_unchanged (BufferPoolManager.mk' 1 DiskManager.init) 0 true rfl⟩

/-- C3.  `unpin(page_id, is_dirty)` returns false exactly when the page is
not in the page table or the resident frame's pin count is already zero
(given the invariant that pin counts are non-negative, which the second
conjunct proves for every reachable state), and consequently pin counts
never become negative under any operation sequence. -/
theorem c3_unpin_false_iff :
    (∀ (s : BufferPoolManager) (pid : Int) (d : Bool),
      (∀ fid, lookupA pid s.page_table = some fid → 0 ≤ (s.getPage fid).pin_count) →
      ((s.unpinPage pid d).1 = false ↔
        lookupA pid s.page_table = none ∨
        ∃ fid, lookupA pid s.page_table = some fid ∧ (s.getPage fid).pin_count = 0)) ∧
    (∀ (n : Nat) (d₀ : DiskManager) (ops : List Op) (f : Nat),
      0 ≤ ((runB (BufferPoolManager.mk' n d₀) ops).getPage f).pin_count) := by
  constructor
  · intro s pid d hnn
    rcases hl : lookupA pid s.page_table with _ | fid
    · rw [BufferPoolManager.unpinPage_absent hl]
      exact ⟨fun _ => Or.inl rfl, fun _ => rfl⟩
    · by_cases hp : (s.getPage fid).pin_count ≤ 0
      · have hz : (s.getPage fid).pin_count = 0 := le_antisymm hp (hnn fid hl)
        rw [BufferPoolManager.unpinPage_underflow hl hp]
        exact ⟨fun _ => Or.inr ⟨fid, rfl, hz⟩, fun _ => rfl⟩
      · have h₁ : (s.unpinPage pid d).1 = true := by
          by_cases hz : (s.getPage fid).pin_count - 1 = 0
          · rw [BufferPoolManager.unpinPage_dec_zero hl hp hz]
          · rw [BufferPoolManager.unpinPage_dec_pos hl hp hz]
        rw [h₁]
        constructor
        · intro habs
          exact Bool.noConfusion habs
        · rintro (habs | ⟨fid₂, hl₂, hz₂⟩)
          · exact Option.noConfusion habs
          · have he : fid = fid₂ := Option.some.inj hl₂
            subst he
            exact absurd (le_of_eq hz₂) hp
  · intro n d₀ ops f
    exact pins_runB ops _ (pins_mk' n d₀) f

/-- C3, witness: on a fresh one-frame pool the unpin of the absent page 5
returns false, matching the right-hand side; and pin counts are
non-negative after a `new` on a fresh two-frame pool. -/
theorem c3_unpin_false_iff_witness :
    ((((BufferPoolManager.mk' 1 DiskManager.init).unpinPage 5 false).1 = false ↔
      lookupA 5 (BufferPoolManager.mk' 1 DiskManager.init).page_table = none ∨
      ∃ fid, lookupA 5 (BufferPoolManager.mk' 1 DiskManager.init).page_table = some fid ∧
        ((BufferPoolManager.mk' 1 DiskManager.init).getPage fid).pin_count = 0)) ∧
    0 ≤ ((runB (BufferPoolManager.mk' 2 DiskManager.init) [Op.newp]).getPage 0).pin_count :=
  ⟨c3_unpin_false_iff.1 (BufferPoolManager.mk' 1 DiskManager.init) 5 false
      (fun fid h => Option.noConfusion h),
    c3_unpin_false_iff.2 2 DiskManager.init [Op.newp] 0⟩

/-! ### Claims about `NewPage`, `FlushPage` and `DeletePage` -/

/-- C2, counterexample.  On a fresh one-frame pool, `new` succeeds with page
id 0 in frame 0, but the returned frame's dirty flag is `true`, not `false`:
the live implementation marks freshly created pages dirty
(`is_dirty_ = true` in `NewPage`), contradicting the claim that every
freshly new'd page starts clean. -/
theorem c2_new_dirty_counterexample :
    ((BufferPoolManager.mk' 1 DiskManager.init).newPage).1 = some (0, 0) ∧
    ¬ ((((BufferPoolManager.mk' 1 DiskManager.init).newPage).2).getPage 0).is_dirty = false :=
  ⟨rfl, by decide⟩

/-- C2, amended.  After a successful `new`, the returned frame has pin count
1, resident page id (the header's page-id field, which is the only resident
id the frame stores) equal to the freshly allocated identifier, and a
page-table entry mapping that identifier to the frame — but its dirty flag
is `true`: freshly new'd pages start dirty in this implementation. -/
theorem c2_new_page_metadata (s : BufferPoolManager) (pid : Int) (fid : Nat)
    (s₁ : BufferPoolManager) (h : s.newPage = (some (pid, fid), s₁))
    (hfid : fid < s.pages.length) :
    pid = s.disk.next_page_id ∧
    s₁.disk.next_page_id = s.disk.next_page_id + 1 ∧
    (s₁.getPage fid).pin_count = 1 ∧
    (s₁.getPage fid).is_dirty = true ∧
    (s₁.getPage fid).data.header.page_id = pid ∧
    lookupA pid s₁.page_table = some fid := by
  rcases hff : s.findFreeFrame with _ | ⟨p⟩
  · rw [BufferPoolManager.newPage_none hff] at h
    exact absurd (congrArg Prod.fst h) (by simp)
  · obtain ⟨fid₂, s₂⟩ := p
    rw [BufferPoolManager.newPage_some hff] at h
    injection h with h₁ h₂
    injection h₁ with h₃
    injection h₃ with h₄ h₅
    obtain ⟨hplen, hnext, _⟩ := BufferPoolManager.findFreeFrame_preserves hff
    subst h₂
    subst h₅
    subst h₄
    have hlen₂ : fid₂ < s₂.pages.length := by rw [hplen]; exact hfid
    have hget : (s₂.setPage fid₂
        ⟨{ zeroImage with
            header := { zeroImage.header with page_id := s₂.disk.next_page_id } },
          true, 1⟩).getPage fid₂ =
        ⟨{ zeroImage with
            header := { zeroImage.header with page_id := s₂.disk.next_page_id } }, true, 1⟩ :=
      BufferPoolManager.getPage_setPage_self _ hlen₂
    refine ⟨hnext, ?_, ?_, ?_, ?_, ?_⟩
    · show s₂.disk.next_page_id + 1 = s.disk.next_page_id + 1
      rw [hnext]
    · show ((s₂.setPage fid₂ _).getPage fid₂).pin_count = 1
      rw [hget]
    · show ((s₂.setPage fid₂ _).getPage fid₂).is_dirty = true
      rw [hget]
    · show ((s₂.setPage fid₂ _).getPage fid₂).data.header.page_id = s₂.disk.next_page_id
      rw [hget]
    · exact lookupA_insertA_self _ _ _

/-- C2, witness for the amended statement: `new` on a fresh one-frame pool
yields page 0 in frame 0 with pin count 1, dirty flag true, stamped
header and the page-table entry. -/
theorem c2_new_page_metadata_witness :
    ((0 : Int) = (BufferPoolManager.mk' 1 DiskManager.init).disk.next_page_id ∧
      ((BufferPoolManager.mk' 1 DiskManager.init).newPage).2.disk.next_page_id =
        (BufferPoolManager.mk' 1 DiskManager.init).disk.next_page_id + 1 ∧
      (((BufferPoolManager.mk' 1 DiskManager.init).newPage).2.getPage 0).pin_count = 1 ∧
      (((BufferPoolManager.mk' 1 DiskManager.init).newPage).2.getPage 0).is_dirty = true ∧
      (((BufferPoolManager.mk' 1 DiskManager.init).newPage).2.getPage 0).data.header.page_id = 0 ∧
      lookupA 0 ((BufferPoolManager.mk' 1 DiskManager.init).newPage).2.page_table = some 0) :=
  c2_new_page_metadata (BufferPoolManager.mk' 1 DiskManager.init) 0 0
    ((BufferPoolManager.mk' 1 DiskManager.init).newPage).2 rfl (by decide)

/-- C6.  For a page resident in the table, `flush` returns true, writes the
frame's full 4 KiB block (header and payload) to disk in exactly one
`WritePage` call — incrementing the disk manager's flush counter by one —
and clears the dirty flag, whether or not the frame was dirty; therefore
`flush(p); flush(p)` issues exactly two disk writes.  A flush of an absent
page returns false and changes nothing. -/
theorem c6_flush_unconditional (s : BufferPoolManager) (pid : Int) (hpid : 0 ≤ pid) :
    (lookupA pid s.page_table = none → s.flushPage pid = (false, s)) ∧
    (∀ fid, lookupA pid s.page_table = some fid →
      (s.flushPage pid).1 = true ∧
      (s.flushPage pid).2.disk = s.disk.writePage pid (s.getPage fid).data ∧
      (s.flushPage pid).2.disk.num_flushes = s.disk.num_flushes + 1 ∧
      (s.flushPage pid).2.page_table = s.page_table ∧
      (fid < s.pages.length → ((s.flushPage pid).2.getPage fid).is_dirty = false) ∧
      ((s.flushPage pid).2.flushPage pid).2.disk.num_flushes = s.disk.num_flushes + 2) := by
  constructor
  · intro h
    exact BufferPoolManager.flushPage_absent h
  · intro fid h
    have e₁ : (s.flushPage pid).1 = true := by rw [BufferPoolManager.flushPage_present h]
    have e₂ : (s.flushPage pid).2.disk = s.disk.writePage pid (s.getPage fid).data := by
      rw [BufferPoolManager.flushPage_present h]
    have e₃ : (s.flushPage pid).2.page_table = s.page_table := by
      rw [BufferPoolManager.flushPage_present h]
    have e₄ : (s.flushPage pid).2.pages =
        s.pages.set fid { s.getPage fid with is_dirty := false } := by
      rw [BufferPoolManager.flushPage_present h]
    refine ⟨e₁, e₂, ?_, e₃, ?_, ?_⟩
    · rw [e₂, DiskManager.writePage_flushes _ _ _ hpid]
    · intro hlen
      show ((s.flushPage pid).2.pages.getD fid defaultPage).is_dirty = false
      rw [e₄, getD_set_self _ defaultPage s.pages fid hlen]
    · have hl₂ : lookupA pid (s.flushPage pid).2.page_table = some fid := by
        rw [e₃]; exact h
      have e₅ : ((s.flushPage pid).2.flushPage pid).2.disk =
          (s.flushPage pid).2.disk.writePage pid ((s.flushPage pid).2.getPage fid).data := by
        rw [BufferPoolManager.flushPage_present hl₂]
      rw [e₅, DiskManager.writePage_flushes _ _ _ hpid, e₂,
        DiskManager.writePage_flushes _ _ _ hpid]

/-- C6, witness: after a `new` on a fresh pool, flushing page 0 succeeds,
performs one disk write (and a second flush performs another), and clears
the dirty flag. -/
theorem c6_flush_unconditional_witness :
    (lookupA 99 (runB (BufferPoolManager.mk' 1 DiskManager.init) [Op.newp]).page_table = none →
      (runB (BufferPoolManager.mk' 1 DiskManager.init) [Op.newp]).flushPage 99 =
        (false, runB (BufferPoolManager.mk' 1 DiskManager.init) [Op.newp])) ∧
    (((runB (BufferPoolManager.mk' 1 DiskManager.init) [Op.newp]).flushPage 0).1 = true ∧
      ((runB (BufferPoolManager.mk' 1 DiskManager.init) [Op.newp]).flushPage 0).2.disk =
        (runB (BufferPoolManager.mk' 1 DiskManager.init) [Op.newp]).disk.writePage 0
          ((runB (BufferPoolManager.mk' 1 DiskManager.init) [Op.newp]).getPage 0).data ∧
      ((runB (BufferPoolManager.mk' 1 DiskManager.init) [Op.newp]).flushPage 0).2.disk.num_flushes =
        (runB (BufferPoolManager.mk' 1 DiskManager.init) [Op.newp]).disk.num_flushes + 1 ∧
      ((runB (BufferPoolManager.mk' 1 DiskManager.init) [Op.newp]).flushPage 0).2.page_table =
        (runB (BufferPoolManager.mk' 1 DiskManager.init) [Op.newp]).page_table ∧
      ((0 : Nat) < (runB (BufferPoolManager.mk' 1 DiskManager.init) [Op.newp]).pages.length →
        (((runB (BufferPoolManager.mk' 1 DiskManager.init) [Op.newp]).flushPage 0).2.getPage
            0).is_dirty = false) ∧
      (((runB (BufferPoolManager.mk' 1 DiskManager.init) [Op.newp]).flushPage 0).2.flushPage
            0).2.disk.num_flushes =
        (runB (BufferPoolManager.mk' 1 DiskManager.init) [Op.newp]).disk.num_flushes + 2) :=
  ⟨(c6_flush_unconditional (runB (BufferPoolManager.mk' 1 DiskManager.init) [Op.newp]) 99
      (by decide)).1,
    (c6_flush_unconditional (runB (BufferPoolManager.mk' 1 DiskManager.init) [Op.newp]) 0
      (by decide)).2 0 (by decide)⟩

/-- C7.  `delete` of a page absent from the table returns true and changes
nothing (so two successive deletes of the same page both return true, given
the table's keys are unique); `delete` of a pinned resident page returns
false and changes nothing; `delete` of an unpinned resident page erases its
table entry, zeros the frame's buffer, stamps the sentinel page id, resets
dirty flag and pin count, appends the frame to the free list and returns
true — and in every branch the disk (backing file and flush counter) is
untouched, even if the frame was dirty. -/
theorem c7_delete_semantics (s : BufferPoolManager) (pid : Int)
    (hk : (keysA s.page_table).Nodup) :
    (lookupA pid s.page_table = none → s.deletePage pid = (true, s)) ∧
    (∀ fid, lookupA pid s.page_table = some fid → 0 < (s.getPage fid).pin_count →
      s.deletePage pid = (false, s)) ∧
    (∀ fid, lookupA pid s.page_table = some fid → ¬ 0 < (s.getPage fid).pin_count →
      (s.deletePage pid).1 = true ∧
      (s.deletePage pid).2.page_table = eraseA pid s.page_table ∧
      (s.deletePage pid).2.free_list = s.free_list ++ [fid] ∧
      (s.deletePage pid).2.replacer = s.replacer.pin fid ∧
      (fid < s.pages.length →
        (s.deletePage pid).2.getPage fid =
          ⟨{ zeroImage with
              header := { zeroImage.header with page_id := INVALID_PAGE_ID } }, false, 0⟩)) ∧
    ((s.deletePage pid).2.disk = s.disk) ∧
    ((s.deletePage pid).1 = true → ((s.deletePage pid).2.deletePage pid).1 = true) := by
  have hdisk : (s.deletePage pid).2.disk = s.disk := by
    rcases hl : lookupA pid s.page_table with _ | fid
    · rw [BufferPoolManager.deletePage_absent hl]
    · by_cases hp : 0 < (s.getPage fid).pin_count
      · rw [BufferPoolManager.deletePage_pinned hl hp]
      · rw [BufferPoolManager.deletePage_ok hl hp]
  refine ⟨?_, ?_, ?_, hdisk, ?_⟩
  · intro h
    exact BufferPoolManager.deletePage_absent h
  · intro fid h hp
    exact BufferPoolManager.deletePage_pinned h hp
  · intro fid h hp
    rw [BufferPoolManager.deletePage_ok h hp]
    refine ⟨rfl, rfl, rfl, rfl, ?_⟩
    intro hlen
    exact BufferPoolManager.getPage_setPage_self _ hlen
  · intro h₁
    rcases hl : lookupA pid s.page_table with _ | fid
    · rw [BufferPoolManager.deletePage_absent hl]
      rw [BufferPoolManager.deletePage_absent hl]
    · by_cases hp : 0 < (s.getPage fid).pin_count
      · rw [BufferPoolManager.deletePage_pinned hl hp] at h₁
        exact Bool.noConfusion h₁
      · rw [BufferPoolManager.deletePage_ok hl hp]
        have h₂ : lookupA pid (eraseA pid s.page_table) = none := lookupA_eraseA_self pid hk
        rw [BufferPoolManager.deletePage_absent
          (s := { s with
            replacer := s.replacer.pin fid
            page_table := eraseA pid s.page_table
            pages := s.pages.set fid
              ⟨{ zeroImage with
                  header := { zeroImage.header with page_id := INVALID_PAGE_ID } }, false, 0⟩
            free_list := s.free_list ++ [fid] }) h₂]

/-- C7, witness: on a pool with page 0 resident, deleting an absent page is
a true no-op, deleting while pinned fails, and after an unpin the delete
succeeds with the frame zeroed, recycled to the free list, the disk
untouched, and a second delete also returning true. -/
theorem c7_delete_semantics_witness :
    ((runB (BufferPoolManager.mk' 1 DiskManager.init) [Op.newp]).deletePage 99 =
      (true, runB (BufferPoolManager.mk' 1 DiskManager.init) [Op.newp])) ∧
    ((runB (BufferPoolManager.mk' 1 DiskManager.init) [Op.newp]).deletePage 0 =
      (false, runB (BufferPoolManager.mk' 1 DiskManager.init) [Op.newp])) ∧
    (((runB (BufferPoolManager.mk' 1 DiskManager.init) [Op.newp, Op.unpin 0 false]).deletePage
        0).1 = true ∧
      ((runB (BufferPoolManager.mk' 1 DiskManager.init)
            [Op.newp, Op.unpin 0 false]).deletePage 0).2.disk =
        (runB (BufferPoolManager.mk' 1 DiskManager.init) [Op.newp, Op.unpin 0 false]).disk ∧
      (((runB (BufferPoolManager.mk' 1 DiskManager.init)
            [Op.newp, Op.unpin 0 false]).deletePage 0).2.deletePage 0).1 = true) := by
  have h₁ := c7_delete_semantics (runB (BufferPoolManager.mk' 1 DiskManager.init) [Op.newp]) 99
    (by decide)
  have h₂ := c7_delete_semantics (runB (BufferPoolManager.mk' 1 DiskManager.init) [Op.newp]) 0
    (by decide)
  have h₃ := c7_delete_semantics
    (runB (BufferPoolManager.mk' 1 DiskManager.init) [Op.newp, Op.unpin 0 false]) 0 (by decide)
  refine ⟨h₁.1 (by decide), h₂.2.1 0 (by decide) (by decide), ?_, h₃.2.2.2.1, ?_⟩
  · exact ((h₃.2.2.1 0 (by decide) (by decide)).1)
  · exact h₃.2.2.2.2 ((h₃.2.2.1 0 (by decide) (by decide)).1)

/-! ### Instrumented buffer-pool traces and the state invariant

The ghost clock ticks once per public operation; a frame gets a fresh stamp
when an operation inserts it into the replacer (only `unpin` does).  The
stamp of a tracked frame is thus the tick of its most recent unpin. -/

structure BpmT where
  bpm : BufferPoolManager
  time : Nat → Nat
  clock : Nat

/-- One instrumented public operation. -/
def tstepB (t : BpmT) (op : Op) : BpmT :=
  { bpm := stepB t.bpm op
    time := fun f =>
      if f ∈ (stepB t.bpm op).replacer.lru_list ∧ f ∉ t.bpm.replacer.lru_list then
        t.clock + 1
      else t.time f
    clock := t.clock + 1 }

/-- An instrumented trace. -/
def trunB (t : BpmT) : List Op → BpmT
  | [] => t
  | op :: ops => trunB (tstepB t op) ops

/-- Tick of the unpin that most recently made frame `f` evictable, after
running `ops` on a fresh pool of `n` frames over disk `d` (0 = never). -/
def lastUnpinB (n : Nat) (d : DiskManager) (ops : List Op) (f : Nat) : Nat :=
  (trunB ⟨BufferPoolManager.mk' n d, fun _ => 0, 0⟩ ops).time f

theorem trunB_bpm (ops : List Op) : ∀ t : BpmT, (trunB t ops).bpm = runB t.bpm ops := by
  induction ops with
  | nil => intro t; rfl
  | cons op ops ih =>
    intro t
    rw [trunB, runB, ih]
    rfl

/-- Per-operation side condition of an allocation-respecting trace: a fetch
may only name an already-allocated page id. -/
def OpOK (s : BufferPoolManager) : Op → Prop
  | .fetch pid => pid < s.disk.next_page_id
  | _ => True

/-- The structural invariant of the buffer pool (holds in every reachable
state of an allocation-respecting trace): the page table is a bijection
between resident page ids and in-range frames whose header stamp matches
and whose ids were allocated; the free list is duplicate-free, in range and
disjoint from the resident frames; residents and free frames count up to
`pool_size` and cover every frame; the replacer tracks exactly the resident
frames with pin count zero; pin counts are non-negative. -/
structure InvCore (s : BufferPoolManager) : Prop where
  hlen : s.pages.length = s.pool_size
  hkeys : (keysA s.page_table).Nodup
  hvals : (valsA s.page_table).Nodup
  hflt : ∀ e ∈ s.page_table, e.2 < s.pool_size
  hhdr : ∀ e ∈ s.page_table, (s.getPage e.2).data.header.page_id = e.1
  hklt : ∀ e ∈ s.page_table, e.1 < s.disk.next_page_id
  hfnd : s.free_list.Nodup
  hflt₂ : ∀ f ∈ s.free_list, f < s.pool_size
  hdisj : ∀ f ∈ s.free_list, f ∉ valsA s.page_table
  hcount : s.page_table.length + s.free_list.length = s.pool_size
  hcover : ∀ f, f < s.pool_size → f ∈ s.free_list ∨ f ∈ valsA s.page_table
  hrep : ∀ f, f ∈ s.replacer.lru_list ↔
    f ∈ valsA s.page_table ∧ (s.getPage f).pin_count = 0
  hrnd : s.replacer.lru_list.Nodup
  hpin : ∀ f, 0 ≤ (s.getPage f).pin_count

/-- The full invariant of an instrumented state: the structural invariant
plus strict ordering of the replacer list by last-unpin tick. -/
def Inv (t : BpmT) : Prop :=
  InvCore t.bpm ∧
  t.bpm.replacer.lru_list.Pairwise (fun a b => t.time b < t.time a) ∧
  ∀ f ∈ t.bpm.replacer.lru_list, t.time f ≤ t.clock

/-- How one operation may change the replacer list: only removals, or one
fresh frame pushed at the MRU front. -/
def Evo (l l₁ : List Nat) : Prop :=
  l₁.Sublist l ∨ ∃ f, f ∉ l ∧ l₁ = f :: l

theorem inv_time_evo {t : BpmT} {op : Op}
    (hevo : Evo t.bpm.replacer.lru_list (stepB t.bpm op).replacer.lru_list)
    (hp : t.bpm.replacer.lru_list.Pairwise (fun a b => t.time b < t.time a))
    (hb : ∀ f ∈ t.bpm.replacer.lru_list, t.time f ≤ t.clock) :
    ((tstepB t op).bpm.replacer.lru_list.Pairwise
      (fun a b => (tstepB t op).time b < (tstepB t op).time a)) ∧
    ∀ f ∈ (tstepB t op).bpm.replacer.lru_list, (tstepB t op).time f ≤ (tstepB t op).clock := by
  have hlist : (tstepB t op).bpm.replacer.lru_list = (stepB t.bpm op).replacer.lru_list := rfl
  rcases hevo with hsub | ⟨fid, hnm, hins⟩
  · have htime : ∀ f ∈ (stepB t.bpm op).replacer.lru_list, (tstepB t op).time f = t.time f := by
      intro f hf
      show (if _ then _ else _) = _
      rw [if_neg]
      rintro ⟨_, hnot⟩
      exact hnot (hsub.mem hf)
    constructor
    · rw [hlist]
      refine (hp.sublist hsub).imp_of_mem ?_
      intro a b ha hb'
      rw [htime a ha, htime b hb']
      exact id
    · intro f hf
      rw [hlist] at hf
      rw [htime f hf]
      exact Nat.le_succ_of_le (hb f (hsub.mem hf))
  · have htime : ∀ f ∈ t.bpm.replacer.lru_list, (tstepB t op).time f = t.time f := by
      intro f hf
      show (if _ then _ else _) = _
      rw [if_neg]
      rintro ⟨_, hnot⟩
      exact hnot hf
    have htfid : (tstepB t op).time fid = t.clock + 1 := by
      show (if _ then _ else _) = _
      rw [if_pos]
      exact ⟨by rw [hins]; exact List.mem_cons_self _ _, hnm⟩
    constructor
    · rw [hlist, hins, List.pairwise_cons]
      constructor
      · intro g hg
        rw [htime g hg, htfid]
        exact Nat.lt_succ_of_le (hb g hg)
      · refine hp.imp_of_mem ?_
        intro a b ha hb'
        rw [htime a ha, htime b hb']
        exact id
    · intro f hf
      rw [hlist, hins] at hf
      rcases List.mem_cons.mp hf with he | hf₂
      · have h₁ : (tstepB t op).time f = t.clock + 1 := by rw [he]; exact htfid
        show (tstepB t op).time f ≤ t.clock + 1
        rw [h₁]
      · have h₁ : (tstepB t op).time f = t.time f := htime f hf₂
        show (tstepB t op).time f ≤ t.clock + 1
        rw [h₁]
        exact Nat.le_succ_of_le (hb f hf₂)

/-! ### Further association-list facts -/

theorem lookupA_mem_keysA {α : Type} {k : Int} {v : α} {l : List (Int × α)}
    (h : lookupA k l = some v) : k ∈ keysA l :=
  (mem_keysA k l).mpr ⟨v, mem_of_lookupA k h⟩

theorem mem_valsA {α : Type} (g : α) (l : List (Int × α)) :
    g ∈ valsA l ↔ ∃ e ∈ l, e.2 = g := by
  unfold valsA
  rw [List.mem_map]

theorem entry_eq_of_vals_nodup {α : Type} [DecidableEq α] {l : List (Int × α)}
    (hv : (valsA l).Nodup) {e₁ e₂ : Int × α} (h₁ : e₁ ∈ l) (h₂ : e₂ ∈ l)
    (h : e₁.2 = e₂.2) : e₁ = e₂ :=
  List.inj_on_of_nodup_map hv h₁ h₂ h

theorem entry_eq_of_keys_nodup {α : Type} {l : List (Int × α)}
    (hk : (keysA l).Nodup) {e₁ e₂ : Int × α} (h₁ : e₁ ∈ l) (h₂ : e₂ ∈ l)
    (h : e₁.1 = e₂.1) : e₁ = e₂ :=
  List.inj_on_of_nodup_map hk h₁ h₂ h

theorem mem_valsA_eraseA {α : Type} [DecidableEq α] {l : List (Int × α)}
    (hk : (keysA l).Nodup) (hv : (valsA l).Nodup) {p : Int} {w : α}
    (hpf : (p, w) ∈ l) (g : α) :
    g ∈ valsA (eraseA p l) ↔ g ∈ valsA l ∧ g ≠ w := by
  constructor
  · intro hg
    obtain ⟨e, he, rfl⟩ := (mem_valsA g _).mp hg
    obtain ⟨hel, hep⟩ := (mem_eraseA_iff p hk e).mp he
    refine ⟨(mem_valsA e.2 l).mpr ⟨e, hel, rfl⟩, fun hgw => ?_⟩
    have : e = (p, w) := entry_eq_of_vals_nodup hv hel hpf hgw
    exact hep (congrArg Prod.fst this)
  · rintro ⟨hg, hgw⟩
    obtain ⟨e, hel, rfl⟩ := (mem_valsA g l).mp hg
    refine (mem_valsA e.2 _).mpr ⟨e, (mem_eraseA_iff p hk e).mpr ⟨hel, fun hep => ?_⟩, rfl⟩
    have : e = (p, w) := entry_eq_of_keys_nodup hk hel hpf hep
    exact hgw (congrArg Prod.snd this)

/-! ### Detach and reattach around `FindFreeFrame` -/

/-- The state right after `FindFreeFrame` hands out frame `fid`: the
structural invariant holds except that `fid` is accounted in neither the
free list nor the page table (the count is one short), ready to be
re-registered by `FetchPage` or `NewPage`. -/
structure DetachedCore (s : BufferPoolManager) (fid : Nat) : Prop where
  hlen : s.pages.length = s.pool_size
  hkeys : (keysA s.page_table).Nodup
  hvals : (valsA s.page_table).Nodup
  hflt : ∀ e ∈ s.page_table, e.2 < s.pool_size
  hhdr : ∀ e ∈ s.page_table, (s.getPage e.2).data.header.page_id = e.1
  hklt : ∀ e ∈ s.page_table, e.1 < s.disk.next_page_id
  hfnd : s.free_list.Nodup
  hflt₂ : ∀ f ∈ s.free_list, f < s.pool_size
  hdisj : ∀ f ∈ s.free_list, f ∉ valsA s.page_table
  hcount : s.page_table.length + s.free_list.length + 1 = s.pool_size
  hcover : ∀ f, f < s.pool_size → f = fid ∨ f ∈ s.free_list ∨ f ∈ valsA s.page_table
  hrep : ∀ f, f ∈ s.replacer.lru_list ↔
    f ∈ valsA s.page_table ∧ (s.getPage f).pin_count = 0
  hrnd : s.replacer.lru_list.Nodup
  hpin : ∀ f, 0 ≤ (s.getPage f).pin_count
  hfid_lt : fid < s.pool_size
  hfid_free : fid ∉ s.free_list
  hfid_vals : fid ∉ valsA s.page_table

theorem invCore_detach {s : BufferPoolManager} {fid : Nat} {s₁ : BufferPoolManager}
    (core : InvCore s) (hff : s.findFreeFrame = some (fid, s₁)) :
    DetachedCore s₁ fid ∧
    s₁.replacer.lru_list.Sublist s.replacer.lru_list ∧
    s₁.page_table.Sublist s.page_table ∧
    s₁.pool_size = s.pool_size ∧
    s₁.disk.next_page_id = s.disk.next_page_id ∧
    s₁.pages.length = s.pages.length := by
  refine BufferPoolManager.findFreeFrame_elim hff ?_ ?_
  · rintro rest hfl rfl
    have hfnd₁ : (fid :: rest).Nodup := hfl ▸ core.hfnd
    refine ⟨⟨core.hlen, core.hkeys, core.hvals, core.hflt, core.hhdr, core.hklt,
      (List.nodup_cons.mp hfnd₁).2,
      fun f hf => core.hflt₂ f (by rw [hfl]; exact List.mem_cons_of_mem _ hf),
      fun f hf => core.hdisj f (by rw [hfl]; exact List.mem_cons_of_mem _ hf),
      ?_, ?_, core.hrep, core.hrnd, core.hpin,
      core.hflt₂ fid (by rw [hfl]; exact List.mem_cons_self _ _),
      (List.nodup_cons.mp hfnd₁).1,
      core.hdisj fid (by rw [hfl]; exact List.mem_cons_self _ _)⟩,
      List.Sublist.refl _, List.Sublist.refl _, rfl, rfl, rfl⟩
    · show s.page_table.length + rest.length + 1 = s.pool_size
      have hc := core.hcount
      rw [hfl] at hc
      simp only [List.length_cons] at hc
      omega
    · intro f hf
      rcases core.hcover f hf with hmem | hmem
      · rw [hfl] at hmem
        rcases List.mem_cons.mp hmem with rfl | hmem
        · exact Or.inl rfl
        · exact Or.inr (Or.inl hmem)
      · exact Or.inr (Or.inr hmem)
  · rintro l hfl hrl rfl
    set pv := (s.getPage fid).data.header.page_id with hpv
    have hfmem : fid ∈ s.replacer.lru_list := by
      rw [hrl]
      exact List.mem_append.mpr (Or.inr (by simp))
    obtain ⟨hfvals, hfpin⟩ := (core.hrep fid).mp hfmem
    obtain ⟨e, hel, he₂⟩ := (mem_valsA fid s.page_table).mp hfvals
    have hepv : e.1 = pv := by
      rw [hpv, ← he₂]
      exact (core.hhdr e hel).symm
    have hentry : (pv, fid) ∈ s.page_table := by
      have : e = (e.1, e.2) := rfl
      rw [← hepv, ← he₂]
      exact hel
    have hpvkeys : pv ∈ keysA s.page_table := (mem_keysA pv _).mpr ⟨fid, hentry⟩
    have hfid_lt : fid < s.pool_size := he₂ ▸ core.hflt e hel
    have hlnd : l.Nodup ∧ fid ∉ l := by
      have hnd : (l ++ [fid]).Nodup := hrl ▸ core.hrnd
      rw [List.nodup_append] at hnd
      exact ⟨hnd.1, fun hm => hnd.2.2 hm (by simp)⟩
    have hlen₁ : fid < s.pages.length := by
      rw [core.hlen]
      exact hfid_lt
    have hget : ∀ g, g ≠ fid →
        (({ s with
            replacer := (⟨l⟩ : LRUReplacer)
            disk :=
              if (s.getPage fid).is_dirty then
                s.disk.writePage (s.getPage fid).data.header.page_id (s.getPage fid).data
              else s.disk
            page_table := eraseA pv s.page_table }).setPage fid defaultPage).getPage g =
          s.getPage g := by
      intro g hg
      exact BufferPoolManager.getPage_setPage_ne defaultPage (fun he => hg he.symm)
    have hgetf :
        (({ s with
            replacer := (⟨l⟩ : LRUReplacer)
            disk :=
              if (s.getPage fid).is_dirty then
                s.disk.writePage (s.getPage fid).data.header.page_id (s.getPage fid).data
              else s.disk
            page_table := eraseA pv s.page_table }).setPage fid defaultPage).getPage fid =
          defaultPage :=
      BufferPoolManager.getPage_setPage_self defaultPage hlen₁
    have hnext :
        (if (s.getPage fid).is_dirty then
            s.disk.writePage (s.getPage fid).data.header.page_id (s.getPage fid).data
          else s.disk).next_page_id = s.disk.next_page_id := by
      split
      · exact DiskManager.writePage_next _ _ _
      · rfl
    have hvalerase := mem_valsA_eraseA core.hkeys core.hvals hentry
    refine ⟨⟨?_, ?_, ?_, ?_, ?_, ?_, ?_, ?_, ?_, ?_, ?_, ?_, ?_, ?_, hfid_lt, ?_, ?_⟩,
      ?_, ?_, rfl, ?_, ?_⟩
    · show (s.pages.set fid defaultPage).length = s.pool_size
      rw [List.length_set]
      exact core.hlen
    · exact ((eraseA_sublist pv s.page_table).map Prod.fst).nodup core.hkeys
    · exact ((eraseA_sublist pv s.page_table).map Prod.snd).nodup core.hvals
    · exact fun e₁ he₁ => core.hflt e₁ ((eraseA_sublist pv s.page_table).mem he₁)
    · intro e₁ he₁
      obtain ⟨hel₁, hne₁⟩ := (mem_eraseA_iff pv core.hkeys e₁).mp he₁
      have hv₁ : e₁.2 ≠ fid := by
        intro hv
        exact hne₁ (congrArg Prod.fst
          (entry_eq_of_vals_nodup core.hvals hel₁ hentry hv))
      rw [hget e₁.2 hv₁]
      exact core.hhdr e₁ hel₁
    · intro e₁ he₁
      show e₁.1 < (if _ then _ else _ : DiskManager).next_page_id
      rw [hnext]
      exact core.hklt e₁ ((eraseA_sublist pv s.page_table).mem he₁)
    · show (s.free_list).Nodup
      exact core.hfnd
    · exact fun f hf => core.hflt₂ f hf
    · intro f hf
      rw [hfl] at hf
      exact absurd hf (List.not_mem_nil f)
    · show (eraseA pv s.page_table).length + s.free_list.length + 1 = s.pool_size
      rw [hfl]
      have hc := core.hcount
      rw [hfl] at hc
      have hl₂ := length_eraseA_of_mem pv hpvkeys
      simp only [List.length_nil, Nat.add_zero] at hc ⊢
      omega
    · intro f hf
      rcases core.hcover f hf with hmem | hmem
      · rw [hfl] at hmem
        exact absurd hmem (List.not_mem_nil f)
      · by_cases hffid : f = fid
        · exact Or.inl hffid
        · exact Or.inr (Or.inr ((hvalerase f).mpr ⟨hmem, hffid⟩))
    · intro f
      constructor
      · intro hf
        have hfne : f ≠ fid := fun he => hlnd.2 (he ▸ hf)
        have hfs : f ∈ s.replacer.lru_list := by
          rw [hrl]
          exact List.mem_append.mpr (Or.inl hf)
        obtain ⟨hv, hz⟩ := (core.hrep f).mp hfs
        refine ⟨(hvalerase f).mpr ⟨hv, hfne⟩, ?_⟩
        rw [hget f hfne]
        exact hz
      · rintro ⟨hv, hz⟩
        obtain ⟨hv₁, hfne⟩ := (hvalerase f).mp hv
        rw [hget f hfne] at hz
        have hfs : f ∈ s.replacer.lru_list := (core.hrep f).mpr ⟨hv₁, hz⟩
        rw [hrl] at hfs
        rcases List.mem_append.mp hfs with h₁ | h₁
        · exact h₁
        · exact absurd (List.mem_singleton.mp h₁) hfne
    · exact hlnd.1
    · intro f
      by_cases hffid : f = fid
      · rw [hffid, hgetf]
        decide
      · rw [hget f hffid]
        exact core.hpin f
    · rw [hfl]
      exact List.not_mem_nil fid
    · exact fun hv => ((hvalerase fid).mp hv).2 rfl
    · show l.Sublist s.replacer.lru_list
      rw [hrl]
      exact List.sublist_append_left l [fid]
    · show (eraseA pv s.page_table).Sublist s.page_table
      exact eraseA_sublist pv s.page_table
    · show (if _ then _ else _ : DiskManager).next_page_id = s.disk.next_page_id
      exact hnext
    · show (s.pages.set fid defaultPage).length = s.pages.length
      exact List.length_set _ _ _

theorem invCore_reattach {s₁ : BufferPoolManager} {fid : Nat} (h : DetachedCore s₁ fid)
    (pid : Int) (img : PageImage) (dflag : Bool) (himg : img.header.page_id = pid)
    (D₂ : DiskManager)
    (hklt₂ : ∀ e ∈ s₁.page_table, e.1 < D₂.next_page_id)
    (hpid₂ : pid < D₂.next_page_id)
    (hfresh : pid ∉ keysA s₁.page_table) :
    InvCore { pool_size := s₁.pool_size, pages := s₁.pages.set fid ⟨img, dflag, 1⟩,
              replacer := s₁.replacer.pin fid, free_list := s₁.free_list,
              page_table := insertA pid fid s₁.page_table, disk := D₂ } ∧
    (s₁.replacer.pin fid).lru_list = s₁.replacer.lru_list := by
  have hins : insertA pid fid s₁.page_table = s₁.page_table ++ [(pid, fid)] :=
    insertA_of_not_mem pid fid hfresh
  have hfnotrep : fid ∉ s₁.replacer.lru_list := fun hm => h.hfid_vals ((h.hrep fid).mp hm).1
  have hpins : (s₁.replacer.pin fid).lru_list = s₁.replacer.lru_list :=
    List.erase_of_not_mem hfnotrep
  have hlen₂ : fid < s₁.pages.length := by
    rw [h.hlen]
    exact h.hfid_lt
  have hkapp : keysA (s₁.page_table ++ [(pid, fid)]) = keysA s₁.page_table ++ [pid] := by
    simp [keysA]
  have hvapp : valsA (s₁.page_table ++ [(pid, fid)]) = valsA s₁.page_table ++ [fid] := by
    simp [valsA]
  have hgetf : ∀ q : Page, (s₁.pages.set fid q).getD fid defaultPage = q := fun q =>
    getD_set_self q defaultPage s₁.pages fid hlen₂
  have hgetne : ∀ (q : Page) (g : Nat), g ≠ fid →
      (s₁.pages.set fid q).getD g defaultPage = s₁.pages.getD g defaultPage := by
    intro q g hg
    exact getD_set_ne q defaultPage s₁.pages fid g (fun he => hg he.symm)
  refine ⟨⟨?_, ?_, ?_, ?_, ?_, ?_, h.hfnd, h.hflt₂, ?_, ?_, ?_, ?_, ?_, ?_⟩, hpins⟩
  · show (s₁.pages.set fid ⟨img, dflag, 1⟩).length = s₁.pool_size
    rw [List.length_set]
    exact h.hlen
  · show (keysA (insertA pid fid s₁.page_table)).Nodup
    rw [hins, hkapp]
    rw [List.nodup_append]
    exact ⟨h.hkeys, List.nodup_singleton pid, fun a ha hb =>
      hfresh (by rwa [← List.mem_singleton.mp hb])⟩
  · show (valsA (insertA pid fid s₁.page_table)).Nodup
    rw [hins, hvapp]
    rw [List.nodup_append]
    exact ⟨h.hvals, List.nodup_singleton fid, fun a ha hb =>
      h.hfid_vals (by rwa [← List.mem_singleton.mp hb])⟩
  · intro e he
    rw [hins] at he
    rcases List.mem_append.mp he with he | he
    · exact h.hflt e he
    · rw [List.mem_singleton.mp he]
      exact h.hfid_lt
  · intro e he
    rw [hins] at he
    rcases List.mem_append.mp he with he | he
    · have hne : e.2 ≠ fid := fun hv =>
        h.hfid_vals ((mem_valsA fid _).mpr ⟨e, he, hv⟩)
      show ((s₁.pages.set fid _).getD e.2 defaultPage).data.header.page_id = e.1
      rw [hgetne _ e.2 hne]
      exact h.hhdr e he
    · rw [List.mem_singleton.mp he]
      show ((s₁.pages.set fid _).getD fid defaultPage).data.header.page_id = pid
      rw [hgetf]
      exact himg
  · intro e he
    rw [hins] at he
    rcases List.mem_append.mp he with he | he
    · exact hklt₂ e he
    · rw [List.mem_singleton.mp he]
      exact hpid₂
  · intro f hf
    have hne : f ≠ fid := fun he => h.hfid_free (he ▸ hf)
    rw [hins, hvapp]
    intro hmem
    rcases List.mem_append.mp hmem with hmem | hmem
    · exact h.hdisj f hf hmem
    · exact hne (List.mem_singleton.mp hmem)
  · show (insertA pid fid s₁.page_table).length + s₁.free_list.length = s₁.pool_size
    rw [hins, List.length_append]
    have := h.hcount
    simp only [List.length_singleton]
    omega
  · intro f hf
    rcases h.hcover f hf with he | hmem | hmem
    · right
      rw [hins, hvapp, he]
      exact List.mem_append.mpr (Or.inr (by simp))
    · exact Or.inl hmem
    · right
      rw [hins, hvapp]
      exact List.mem_append.mpr (Or.inl hmem)
  · intro f
    show f ∈ (s₁.replacer.pin fid).lru_list ↔ _
    rw [hpins]
    by_cases hffid : f = fid
    · subst hffid
      constructor
      · exact fun hm => absurd hm hfnotrep
      · rintro ⟨_, hz⟩
        have hz₂ : ((s₁.pages.set f ⟨img, dflag, 1⟩).getD f defaultPage).pin_count = 0 := hz
        rw [hgetf] at hz₂
        have hz₃ : (1 : Int) = 0 := hz₂
        exact absurd hz₃ one_ne_zero
    · constructor
      · intro hm
        obtain ⟨hv, hz⟩ := (h.hrep f).mp hm
        constructor
        · show f ∈ valsA (insertA pid fid s₁.page_table)
          rw [hins, hvapp]
          exact List.mem_append.mpr (Or.inl hv)
        · show ((s₁.pages.set fid ⟨img, dflag, 1⟩).getD f defaultPage).pin_count = 0
          rw [hgetne _ f hffid]
          exact hz
      · rintro ⟨hv, hz⟩
        have hv₂ : f ∈ valsA (insertA pid fid s₁.page_table) := hv
        rw [hins, hvapp] at hv₂
        have hz₂ : ((s₁.pages.set fid ⟨img, dflag, 1⟩).getD f defaultPage).pin_count = 0 := hz
        rw [hgetne _ f hffid] at hz₂
        rcases List.mem_append.mp hv₂ with hv₃ | hv₃
        · exact (h.hrep f).mpr ⟨hv₃, hz₂⟩
        · exact absurd (List.mem_singleton.mp hv₃) hffid
  · show (s₁.replacer.pin fid).lru_list.Nodup
    rw [hpins]
    exact h.hrnd
  · intro f
    by_cases hffid : f = fid
    · subst hffid
      show (0 : Int) ≤ ((s₁.pages.set f ⟨img, dflag, 1⟩).getD f defaultPage).pin_count
      rw [hgetf]
      exact zero_le_one
    · show (0 : Int) ≤ ((s₁.pages.set fid ⟨img, dflag, 1⟩).getD f defaultPage).pin_count
      rw [hgetne _ f hffid]
      exact h.hpin f

/-! ### Invariant preservation, operation by operation -/

theorem invCore_skel {s b : BufferPoolManager} (core : InvCore s)
    (hps : b.pool_size = s.pool_size) (hpt : b.page_table = s.page_table)
    (hfl : b.free_list = s.free_list) (hrp : b.replacer = s.replacer)
    (hnx : b.disk.next_page_id = s.disk.next_page_id)
    (hln : b.pages.length = s.pages.length)
    (hpg : ∀ g, (b.getPage g).data.header.page_id = (s.getPage g).data.header.page_id ∧
      (b.getPage g).pin_count = (s.getPage g).pin_count) : InvCore b := by
  refine ⟨?_, ?_, ?_, ?_, ?_, ?_, ?_, ?_, ?_, ?_, ?_, ?_, ?_, ?_⟩
  · rw [hln, hps]
    exact core.hlen
  · rw [hpt]; exact core.hkeys
  · rw [hpt]; exact core.hvals
  · rw [hpt, hps]; exact core.hflt
  · intro e he
    rw [hpt] at he
    rw [(hpg e.2).1]
    exact core.hhdr e he
  · intro e he
    rw [hpt] at he
    rw [hnx]
    exact core.hklt e he
  · rw [hfl]; exact core.hfnd
  · rw [hfl, hps]; exact core.hflt₂
  · rw [hfl, hpt]; exact core.hdisj
  · rw [hpt, hfl, hps]; exact core.hcount
  · rw [hps, hfl, hpt]; exact core.hcover
  · intro f
    rw [hrp, hpt, (hpg f).2]
    exact core.hrep f
  · rw [hrp]; exact core.hrnd
  · intro f
    rw [(hpg f).2]
    exact core.hpin f

theorem invCore_flushAll {s : BufferPoolManager} (core : InvCore s) :
    InvCore s.flushAllPages ∧ s.flushAllPages.replacer = s.replacer := by
  have hP : ∀ l : List (Int × Nat),
      ∀ b : BufferPoolManager,
      (b.pool_size = s.pool_size ∧ b.page_table = s.page_table ∧
        b.free_list = s.free_list ∧ b.replacer = s.replacer ∧
        b.disk.next_page_id = s.disk.next_page_id ∧ b.pages.length = s.pages.length ∧
        ∀ g, (b.getPage g).data.header.page_id = (s.getPage g).data.header.page_id ∧
          (b.getPage g).pin_count = (s.getPage g).pin_count) →
      let r := l.foldl
        (fun acc e =>
          let p := acc.getPage e.2
          if p.is_dirty then
            ({ acc with disk := acc.disk.writePage e.1 p.data }).setPage e.2
              { p with is_dirty := false }
          else acc) b
      (r.pool_size = s.pool_size ∧ r.page_table = s.page_table ∧
        r.free_list = s.free_list ∧ r.replacer = s.replacer ∧
        r.disk.next_page_id = s.disk.next_page_id ∧ r.pages.length = s.pages.length ∧
        ∀ g, (r.getPage g).data.header.page_id = (s.getPage g).data.header.page_id ∧
          (r.getPage g).pin_count = (s.getPage g).pin_count) := by
    intro l
    refine foldl_preserve ?_ l
    intro acc e hacc
    obtain ⟨h₁, h₂, h₃, h₄, h₅, h₆, h₇⟩ := hacc
    dsimp only
    split
    · refine ⟨h₁, h₂, h₃, h₄, ?_, ?_, ?_⟩
      · show (acc.disk.writePage e.1 (acc.getPage e.2).data).next_page_id = _
        rw [DiskManager.writePage_next]
        exact h₅
      · show (acc.pages.set e.2 _).length = _
        rw [List.length_set]
        exact h₆
      · intro g
        by_cases hge : e.2 = g
        · subst hge
          by_cases hlt : e.2 < acc.pages.length
          · have hsel := getD_set_self
              { acc.getPage e.2 with is_dirty := false } defaultPage acc.pages e.2 hlt
            constructor
            · show ((acc.pages.set e.2 _).getD e.2 defaultPage).data.header.page_id = _
              rw [hsel]
              exact (h₇ e.2).1
            · show ((acc.pages.set e.2 _).getD e.2 defaultPage).pin_count = _
              rw [hsel]
              exact (h₇ e.2).2
          · have hno := set_of_le acc.pages e.2
              { acc.getPage e.2 with is_dirty := false } (Nat.le_of_not_lt hlt)
            constructor
            · show ((acc.pages.set e.2 _).getD e.2 defaultPage).data.header.page_id = _
              rw [hno]
              exact (h₇ e.2).1
            · show ((acc.pages.set e.2 _).getD e.2 defaultPage).pin_count = _
              rw [hno]
              exact (h₇ e.2).2
        · have hne := getD_set_ne { acc.getPage e.2 with is_dirty := false } defaultPage
            acc.pages e.2 g hge
          constructor
          · show ((acc.pages.set e.2 _).getD g defaultPage).data.header.page_id = _
            rw [hne]
            exact (h₇ g).1
          · show ((acc.pages.set e.2 _).getD g defaultPage).pin_count = _
            rw [hne]
            exact (h₇ g).2
    · exact ⟨h₁, h₂, h₃, h₄, h₅, h₆, h₇⟩
  have hres := hP s.page_table s ⟨rfl, rfl, rfl, rfl, rfl, rfl, fun g => ⟨rfl, rfl⟩⟩
  obtain ⟨h₁, h₂, h₃, h₄, h₅, h₆, h₇⟩ := hres
  exact ⟨invCore_skel core h₁ h₂ h₃ h₄ h₅ h₆ h₇, h₄⟩

theorem invCore_unpin {s : BufferPoolManager} (core : InvCore s) (pid : Int) (d : Bool) :
    InvCore (s.unpinPage pid d).2 ∧
    Evo s.replacer.lru_list (s.unpinPage pid d).2.replacer.lru_list := by
  rcases hl : lookupA pid s.page_table with _ | fid
  · rw [BufferPoolManager.unpinPage_absent hl]
    exact ⟨core, Or.inl (List.Sublist.refl _)⟩
  · have hentry : (pid, fid) ∈ s.page_table := mem_of_lookupA pid hl
    have hfv : fid ∈ valsA s.page_table := (mem_valsA fid _).mpr ⟨(pid, fid), hentry, rfl⟩
    have hlen₂ : fid < s.pages.length := by
      rw [core.hlen]
      exact core.hflt (pid, fid) hentry
    by_cases hp : (s.getPage fid).pin_count ≤ 0
    · rw [BufferPoolManager.unpinPage_underflow hl hp]
      exact ⟨core, Or.inl (List.Sublist.refl _)⟩
    · have hpos : 0 < (s.getPage fid).pin_count := lt_of_not_le hp
      have hfnot : fid ∉ s.replacer.lru_list := fun hm => by
        have := ((core.hrep fid).mp hm).2
        omega
      have hgetf : ∀ q : Page, (s.pages.set fid q).getD fid defaultPage = q := fun q =>
        getD_set_self q defaultPage s.pages fid hlen₂
      have hgetne : ∀ (q : Page) (g : Nat), g ≠ fid →
          (s.pages.set fid q).getD g defaultPage = s.pages.getD g defaultPage := by
        intro q g hg
        exact getD_set_ne q defaultPage s.pages fid g (fun he => hg he.symm)
      by_cases hz : (s.getPage fid).pin_count - 1 = 0
      · rw [BufferPoolManager.unpinPage_dec_zero hl hp hz]
        have hlist : (s.replacer.unpin fid).lru_list = fid :: s.replacer.lru_list :=
          LRUReplacer.unpin_of_not_mem hfnot
        refine ⟨⟨?_, core.hkeys, core.hvals, core.hflt, ?_, core.hklt, core.hfnd,
          core.hflt₂, core.hdisj, ?_, core.hcover, ?_, ?_, ?_⟩,
          Or.inr ⟨fid, hfnot, hlist⟩⟩
        · show (s.pages.set fid _).length = s.pool_size
          rw [List.length_set]
          exact core.hlen
        · intro e he
          by_cases hge : e.2 = fid
          · show ((s.pages.set fid _).getD e.2 defaultPage).data.header.page_id = e.1
            rw [hge, hgetf]
            have := core.hhdr e he
            rw [hge] at this
            exact this
          · show ((s.pages.set fid _).getD e.2 defaultPage).data.header.page_id = e.1
            rw [hgetne _ e.2 hge]
            exact core.hhdr e he
        · show s.page_table.length + s.free_list.length = s.pool_size
          exact core.hcount
        · intro f
          show f ∈ (s.replacer.unpin fid).lru_list ↔ _
          rw [hlist]
          by_cases hffid : f = fid
          · subst hffid
            constructor
            · intro _
              refine ⟨hfv, ?_⟩
              show ((s.pages.set f _).getD f defaultPage).pin_count = 0
              rw [hgetf]
              exact hz
            · intro _
              exact List.mem_cons_self _ _
          · rw [List.mem_cons]
            constructor
            · rintro (he | hm)
              · exact absurd he hffid
              · obtain ⟨hv, hz₂⟩ := (core.hrep f).mp hm
                refine ⟨hv, ?_⟩
                show ((s.pages.set fid _).getD f defaultPage).pin_count = 0
                rw [hgetne _ f hffid]
                exact hz₂
            · rintro ⟨hv, hz₂⟩
              have hz₃ : ((s.pages.set fid _).getD f defaultPage).pin_count = 0 := hz₂
              rw [hgetne _ f hffid] at hz₃
              exact Or.inr ((core.hrep f).mpr ⟨hv, hz₃⟩)
        · show (s.replacer.unpin fid).lru_list.Nodup
          rw [hlist]
          exact List.nodup_cons.mpr ⟨hfnot, core.hrnd⟩
        · intro f
          by_cases hffid : f = fid
          · subst hffid
            show (0 : Int) ≤ ((s.pages.set f _).getD f defaultPage).pin_count
            rw [hgetf]
            show (0 : Int) ≤ (s.getPage f).pin_count - 1
            omega
          · show (0 : Int) ≤ ((s.pages.set fid _).getD f defaultPage).pin_count
            rw [hgetne _ f hffid]
            exact core.hpin f
      · rw [BufferPoolManager.unpinPage_dec_pos hl hp hz]
        refine ⟨⟨?_, core.hkeys, core.hvals, core.hflt, ?_, core.hklt, core.hfnd,
          core.hflt₂, core.hdisj, core.hcount, core.hcover, ?_, core.hrnd, ?_⟩,
          Or.inl (List.Sublist.refl _)⟩
        · show (s.pages.set fid _).length = s.pool_size
          rw [List.length_set]
          exact core.hlen
        · intro e he
          by_cases hge : e.2 = fid
          · show ((s.pages.set fid _).getD e.2 defaultPage).data.header.page_id = e.1
            rw [hge, hgetf]
            have := core.hhdr e he
            rw [hge] at this
            exact this
          · show ((s.pages.set fid _).getD e.2 defaultPage).data.header.page_id = e.1
            rw [hgetne _ e.2 hge]
            exact core.hhdr e he
        · intro f
          by_cases hffid : f = fid
          · subst hffid
            constructor
            · intro hm
              exact absurd hm hfnot
            · rintro ⟨_, hz₂⟩
              have hz₃ : ((s.pages.set f _).getD f defaultPage).pin_count = 0 := hz₂
              rw [hgetf] at hz₃
              exact absurd hz₃ hz
          · constructor
            · intro hm
              obtain ⟨hv, hz₂⟩ := (core.hrep f).mp hm
              refine ⟨hv, ?_⟩
              show ((s.pages.set fid _).getD f defaultPage).pin_count = 0
              rw [hgetne _ f hffid]
              exact hz₂
            · rintro ⟨hv, hz₂⟩
              have hz₃ : ((s.pages.set fid _).getD f defaultPage).pin_count = 0 := hz₂
              rw [hgetne _ f hffid] at hz₃
              exact (core.hrep f).mpr ⟨hv, hz₃⟩
        · intro f
          by_cases hffid : f = fid
          · subst hffid
            show (0 : Int) ≤ ((s.pages.set f _).getD f defaultPage).pin_count
            rw [hgetf]
            show (0 : Int) ≤ (s.getPage f).pin_count - 1
            omega
          · show (0 : Int) ≤ ((s.pages.set fid _).getD f defaultPage).pin_count
            rw [hgetne _ f hffid]
            exact core.hpin f

theorem invCore_flush {s : BufferPoolManager} (core : InvCore s) (pid : Int) :
    InvCore (s.flushPage pid).2 ∧
    Evo s.replacer.lru_list (s.flushPage pid).2.replacer.lru_list := by
  rcases hl : lookupA pid s.page_table with _ | fid
  · rw [BufferPoolManager.flushPage_absent hl]
    exact ⟨core, Or.inl (List.Sublist.refl _)⟩
  · rw [BufferPoolManager.flushPage_present hl]
    refine ⟨?_, Or.inl (List.Sublist.refl _)⟩
    refine invCore_skel core rfl rfl rfl rfl ?_ ?_ ?_
    · show (s.disk.writePage pid _).next_page_id = _
      exact DiskManager.writePage_next _ _ _
    · show (s.pages.set fid _).length = _
      exact List.length_set _ _ _
    · intro g
      by_cases hge : fid = g
      · subst hge
        by_cases hlt : fid < s.pages.length
        · have hsel := getD_set_self { s.getPage fid with is_dirty := false }
            defaultPage s.pages fid hlt
          constructor
          · show ((s.pages.set fid _).getD fid defaultPage).data.header.page_id = _
            rw [hsel]
          · show ((s.pages.set fid _).getD fid defaultPage).pin_count = _
            rw [hsel]
        · have hno := set_of_le s.pages fid { s.getPage fid with is_dirty := false }
            (Nat.le_of_not_lt hlt)
          constructor
          · show ((s.pages.set fid _).getD fid defaultPage).data.header.page_id = _
            rw [hno]
            rfl
          · show ((s.pages.set fid _).getD fid defaultPage).pin_count = _
            rw [hno]
            rfl
      · have hne := getD_set_ne { s.getPage fid with is_dirty := false } defaultPage
          s.pages fid g hge
        constructor
        · show ((s.pages.set fid _).getD g defaultPage).data.header.page_id = _
          rw [hne]
          rfl
        · show ((s.pages.set fid _).getD g defaultPage).pin_count = _
          rw [hne]
          rfl

theorem invCore_del {s : BufferPoolManager} (core : InvCore s) (pid : Int) :
    InvCore (s.deletePage pid).2 ∧
    Evo s.replacer.lru_list (s.deletePage pid).2.replacer.lru_list := by
  rcases hl : lookupA pid s.page_table with _ | fid
  · rw [BufferPoolManager.deletePage_absent hl]
    exact ⟨core, Or.inl (List.Sublist.refl _)⟩
  · by_cases hp : 0 < (s.getPage fid).pin_count
    · rw [BufferPoolManager.deletePage_pinned hl hp]
      exact ⟨core, Or.inl (List.Sublist.refl _)⟩
    · rw [BufferPoolManager.deletePage_ok hl hp]
      have hentry : (pid, fid) ∈ s.page_table := mem_of_lookupA pid hl
      have hfv : fid ∈ valsA s.page_table := (mem_valsA fid _).mpr ⟨(pid, fid), hentry, rfl⟩
      have hfid_lt : fid < s.pool_size := core.hflt (pid, fid) hentry
      have hlen₂ : fid < s.pages.length := by
        rw [core.hlen]
        exact hfid_lt
      have hpz : (s.getPage fid).pin_count = 0 := le_antisymm (le_of_not_lt hp) (core.hpin fid)
      have hffree : fid ∉ s.free_list := fun hm => core.hdisj fid hm hfv
      have hpvkeys : pid ∈ keysA s.page_table := (mem_keysA pid _).mpr ⟨fid, hentry⟩
      have hvalerase := mem_valsA_eraseA core.hkeys core.hvals hentry
      have hgetf : ∀ q : Page, (s.pages.set fid q).getD fid defaultPage = q := fun q =>
        getD_set_self q defaultPage s.pages fid hlen₂
      have hgetne : ∀ (q : Page) (g : Nat), g ≠ fid →
          (s.pages.set fid q).getD g defaultPage = s.pages.getD g defaultPage := by
        intro q g hg
        exact getD_set_ne q defaultPage s.pages fid g (fun he => hg he.symm)
      refine ⟨⟨?_, ?_, ?_, ?_, ?_, ?_, ?_, ?_, ?_, ?_, ?_, ?_, ?_, ?_⟩,
        Or.inl (List.erase_sublist _ _)⟩
      · show (s.pages.set fid _).length = s.pool_size
        rw [List.length_set]
        exact core.hlen
      · exact ((eraseA_sublist pid s.page_table).map Prod.fst).nodup core.hkeys
      · exact ((eraseA_sublist pid s.page_table).map Prod.snd).nodup core.hvals
      · exact fun e he => core.hflt e ((eraseA_sublist pid s.page_table).mem he)
      · intro e he
        obtain ⟨hel, hne⟩ := (mem_eraseA_iff pid core.hkeys e).mp he
        have hv₁ : e.2 ≠ fid := by
          intro hv
          exact hne (congrArg Prod.fst (entry_eq_of_vals_nodup core.hvals hel hentry hv))
        show ((s.pages.set fid _).getD e.2 defaultPage).data.header.page_id = e.1
        rw [hgetne _ e.2 hv₁]
        exact core.hhdr e hel
      · exact fun e he => core.hklt e ((eraseA_sublist pid s.page_table).mem he)
      · show (s.free_list ++ [fid]).Nodup
        rw [List.nodup_append]
        exact ⟨core.hfnd, List.nodup_singleton fid, fun a ha hb =>
          (by rw [List.mem_singleton.mp hb] at ha; exact hffree ha : False)⟩
      · intro f hf
        rcases List.mem_append.mp hf with hf | hf
        · exact core.hflt₂ f hf
        · rw [List.mem_singleton.mp hf]
          exact hfid_lt
      · intro f hf
        rcases List.mem_append.mp hf with hf | hf
        · intro hmem
          exact core.hdisj f hf ((hvalerase f).mp hmem).1
        · rw [List.mem_singleton.mp hf]
          intro hmem
          exact ((hvalerase fid).mp hmem).2 rfl
      · show (eraseA pid s.page_table).length + (s.free_list ++ [fid]).length = s.pool_size
        rw [List.length_append]
        have h₁ := length_eraseA_of_mem pid hpvkeys
        have h₂ := core.hcount
        simp only [List.length_singleton]
        omega
      · intro f hf
        rcases core.hcover f hf with hmem | hmem
        · exact Or.inl (List.mem_append.mpr (Or.inl hmem))
        · by_cases hffid : f = fid
          · exact Or.inl (List.mem_append.mpr (Or.inr (by rw [hffid]; simp)))
          · exact Or.inr ((hvalerase f).mpr ⟨hmem, hffid⟩)
      · intro f
        show f ∈ s.replacer.lru_list.erase fid ↔ _
        by_cases hffid : f = fid
        · subst hffid
          constructor
          · intro hm
            exact absurd ((core.hrnd.mem_erase_iff).mp hm).1 (fun h => h rfl)
          · rintro ⟨hv, _⟩
            exact absurd ((hvalerase f).mp hv).2 (fun h => h rfl)
        · constructor
          · intro hm
            have hm₂ : f ∈ s.replacer.lru_list := List.mem_of_mem_erase hm
            obtain ⟨hv, hz⟩ := (core.hrep f).mp hm₂
            refine ⟨(hvalerase f).mpr ⟨hv, hffid⟩, ?_⟩
            show ((s.pages.set fid _).getD f defaultPage).pin_count = 0
            rw [hgetne _ f hffid]
            exact hz
          · rintro ⟨hv, hz⟩
            have hz₂ : ((s.pages.set fid _).getD f defaultPage).pin_count = 0 := hz
            rw [hgetne _ f hffid] at hz₂
            have hm : f ∈ s.replacer.lru_list :=
              (core.hrep f).mpr ⟨((hvalerase f).mp hv).1, hz₂⟩
            exact (core.hrnd.mem_erase_iff).mpr ⟨hffid, hm⟩
      · show (s.replacer.lru_list.erase fid).Nodup
        exact core.hrnd.erase fid
      · intro f
        by_cases hffid : f = fid
        · subst hffid
          show (0 : Int) ≤ ((s.pages.set f _).getD f defaultPage).pin_count
          rw [hgetf]
        · show (0 : Int) ≤ ((s.pages.set fid _).getD f defaultPage).pin_count
          rw [hgetne _ f hffid]
          exact core.hpin f

theorem invCore_fetch {s : BufferPoolManager} (core : InvCore s) (pid : Int)
    (hok : pid < s.disk.next_page_id) :
    InvCore (s.fetchPage pid).2 ∧
    Evo s.replacer.lru_list (s.fetchPage pid).2.replacer.lru_list := by
  rcases hl : lookupA pid s.page_table with _ | fid
  · rcases hff : s.findFreeFrame with _ | ⟨p⟩
    · rw [BufferPoolManager.fetchPage_miss_none hl hff]
      exact ⟨core, Or.inl (List.Sublist.refl _)⟩
    · obtain ⟨fid, s₁⟩ := p
      obtain ⟨det, hsubrep, hsubtab, hpool, hnext, hplen⟩ := invCore_detach core hff
      have hfresh : pid ∉ keysA s₁.page_table := by
        intro hm
        obtain ⟨v, hv⟩ := (mem_keysA pid _).mp hm
        exact (lookupA_eq_none pid s.page_table).mp hl
          ((mem_keysA pid _).mpr ⟨v, hsubtab.mem hv⟩)
      have hpid₂ : pid < s₁.disk.next_page_id := by
        rw [hnext]
        exact hok
      obtain ⟨core₂, hrepeq⟩ := invCore_reattach det pid
        { s₁.disk.readPage pid with
          header := { (s₁.disk.readPage pid).header with page_id := pid } } false rfl
        s₁.disk det.hklt hpid₂ hfresh
      rw [BufferPoolManager.fetchPage_miss_some hl hff]
      refine ⟨core₂, Or.inl ?_⟩
      show (s₁.replacer.pin fid).lru_list.Sublist s.replacer.lru_list
      rw [hrepeq]
      exact hsubrep
  · rw [BufferPoolManager.fetchPage_hit hl]
    have hentry : (pid, fid) ∈ s.page_table := mem_of_lookupA pid hl
    have hlen₂ : fid < s.pages.length := by
      rw [core.hlen]
      exact core.hflt (pid, fid) hentry
    have hgetf : ∀ q : Page, (s.pages.set fid q).getD fid defaultPage = q := fun q =>
      getD_set_self q defaultPage s.pages fid hlen₂
    have hgetne : ∀ (q : Page) (g : Nat), g ≠ fid →
        (s.pages.set fid q).getD g defaultPage = s.pages.getD g defaultPage := by
      intro q g hg
      exact getD_set_ne q defaultPage s.pages fid g (fun he => hg he.symm)
    refine ⟨⟨?_, core.hkeys, core.hvals, core.hflt, ?_, core.hklt, core.hfnd,
      core.hflt₂, core.hdisj, core.hcount, core.hcover, ?_, ?_, ?_⟩,
      Or.inl (List.erase_sublist _ _)⟩
    · show (s.pages.set fid _).length = s.pool_size
      rw [List.length_set]
      exact core.hlen
    · intro e he
      by_cases hge : e.2 = fid
      · show ((s.pages.set fid _).getD e.2 defaultPage).data.header.page_id = e.1
        rw [hge, hgetf]
        have := core.hhdr e he
        rw [hge] at this
        exact this
      · show ((s.pages.set fid _).getD e.2 defaultPage).data.header.page_id = e.1
        rw [hgetne _ e.2 hge]
        exact core.hhdr e he
    · intro f
      show f ∈ s.replacer.lru_list.erase fid ↔ _
      by_cases hffid : f = fid
      · subst hffid
        constructor
        · intro hm
          exact absurd ((core.hrnd.mem_erase_iff).mp hm).1 (fun h => h rfl)
        · rintro ⟨_, hz⟩
          have hz₂ : ((s.pages.set f _).getD f defaultPage).pin_count = 0 := hz
          rw [hgetf] at hz₂
          have hz₃ : (s.getPage f).pin_count + 1 = 0 := hz₂
          have := core.hpin f
          omega
      · constructor
        · intro hm
          obtain ⟨hv, hz⟩ := (core.hrep f).mp (List.mem_of_mem_erase hm)
          refine ⟨hv, ?_⟩
          show ((s.pages.set fid _).getD f defaultPage).pin_count = 0
          rw [hgetne _ f hffid]
          exact hz
        · rintro ⟨hv, hz⟩
          have hz₂ : ((s.pages.set fid _).getD f defaultPage).pin_count = 0 := hz
          rw [hgetne _ f hffid] at hz₂
          exact (core.hrnd.mem_erase_iff).mpr ⟨hffid, (core.hrep f).mpr ⟨hv, hz₂⟩⟩
    · show (s.replacer.lru_list.erase fid).Nodup
      exact core.hrnd.erase fid
    · intro f
      by_cases hffid : f = fid
      · subst hffid
        show (0 : Int) ≤ ((s.pages.set f _).getD f defaultPage).pin_count
        rw [hgetf]
        show (0 : Int) ≤ (s.getPage f).pin_count + 1
        have := core.hpin f
        omega
      · show (0 : Int) ≤ ((s.pages.set fid _).getD f defaultPage).pin_count
        rw [hgetne _ f hffid]
        exact core.hpin f

theorem invCore_newp {s : BufferPoolManager} (core : InvCore s) :
    InvCore (s.newPage).2 ∧
    Evo s.replacer.lru_list (s.newPage).2.replacer.lru_list := by
  rcases hff : s.findFreeFrame with _ | ⟨p⟩
  · rw [BufferPoolManager.newPage_none hff]
    exact ⟨core, Or.inl (List.Sublist.refl _)⟩
  · obtain ⟨fid, s₁⟩ := p
    obtain ⟨det, hsubrep, hsubtab, hpool, hnext, hplen⟩ := invCore_detach core hff
    have hfresh : s₁.disk.next_page_id ∉ keysA s₁.page_table := by
      intro hm
      obtain ⟨v, hv⟩ := (mem_keysA _ _).mp hm
      exact absurd (det.hklt (s₁.disk.next_page_id, v) hv) (lt_irrefl _)
    have hklt₂ : ∀ e ∈ s₁.page_table,
        e.1 < ({ s₁.disk with next_page_id := s₁.disk.next_page_id + 1 }
          : DiskManager).next_page_id := by
      intro e he
      show e.1 < s₁.disk.next_page_id + 1
      have := det.hklt e he
      omega
    have hpid₂ : s₁.disk.next_page_id <
        ({ s₁.disk with next_page_id := s₁.disk.next_page_id + 1 }
          : DiskManager).next_page_id := by
      show s₁.disk.next_page_id < s₁.disk.next_page_id + 1
      omega
    obtain ⟨core₂, hrepeq⟩ := invCore_reattach det s₁.disk.next_page_id
      { zeroImage with
        header := { zeroImage.header with page_id := s₁.disk.next_page_id } } true rfl
      { s₁.disk with next_page_id := s₁.disk.next_page_id + 1 } hklt₂ hpid₂ hfresh
    rw [BufferPoolManager.newPage_some hff]
    refine ⟨core₂, Or.inl ?_⟩
    show (s₁.replacer.pin fid).lru_list.Sublist s.replacer.lru_list
    rw [hrepeq]
    exact hsubrep

theorem invCore_stepB {s : BufferPoolManager} (core : InvCore s) (op : Op)
    (hok : OpOK s op) :
    InvCore (stepB s op) ∧ Evo s.replacer.lru_list (stepB s op).replacer.lru_list := by
  cases op with
  | fetch pid => exact invCore_fetch core pid hok
  | newp => exact invCore_newp core
  | unpin pid d => exact invCore_unpin core pid d
  | flush pid => exact invCore_flush core pid
  | del pid => exact invCore_del core pid
  | flushAll =>
    obtain ⟨hcore, hrep⟩ := invCore_flushAll core
    refine ⟨hcore, Or.inl ?_⟩
    show s.flushAllPages.replacer.lru_list.Sublist s.replacer.lru_list
    rw [hrep]

theorem inv_tstepB {t : BpmT} (h : Inv t) (op : Op) (hok : OpOK t.bpm op) :
    Inv (tstepB t op) := by
  obtain ⟨core, hp, hb⟩ := h
  obtain ⟨core₂, hevo⟩ := invCore_stepB core op hok
  obtain ⟨hp₂, hb₂⟩ := inv_time_evo hevo hp hb
  exact ⟨core₂, hp₂, hb₂⟩

theorem inv_trunB (ops : List Op) :
    ∀ t : BpmT, Inv t → Valid t.bpm ops → Inv (trunB t ops) := by
  induction ops with
  | nil => exact fun t h _ => h
  | cons op ops ih =>
    intro t h hv
    obtain ⟨hok, hv₂⟩ := hv
    refine ih (tstepB t op) (inv_tstepB h op ?_) hv₂
    cases op <;> exact hok

theorem inv_mk' (n : Nat) (d : DiskManager) :
    Inv ⟨BufferPoolManager.mk' n d, fun _ => 0, 0⟩ := by
  refine ⟨⟨?_, ?_, ?_, ?_, ?_, ?_, ?_, ?_, ?_, ?_, ?_, ?_, ?_, ?_⟩, ?_, ?_⟩
  · exact List.length_replicate n defaultPage
  · exact List.nodup_nil
  · exact List.nodup_nil
  · intro e he
    exact absurd he (List.not_mem_nil e)
  · intro e he
    exact absurd he (List.not_mem_nil e)
  · intro e he
    exact absurd he (List.not_mem_nil e)
  · exact List.nodup_range n
  · intro f hf
    exact List.mem_range.mp hf
  · intro f _ hmem
    exact absurd hmem (List.not_mem_nil f)
  · show (0 : Nat) + (List.range n).length = n
    rw [List.length_range, Nat.zero_add]
  · intro f hf
    exact Or.inl (List.mem_range.mpr hf)
  · intro f
    constructor
    · intro hm
      exact absurd hm (List.not_mem_nil f)
    · rintro ⟨hv, _⟩
      exact absurd hv (List.not_mem_nil f)
  · exact List.nodup_nil
  · intro f
    show (0 : Int) ≤ ((List.replicate n defaultPage).getD f defaultPage).pin_count
    rw [getD_replicate_self]
    decide
  · exact List.Pairwise.nil
  · intro f hf
    exact absurd hf (List.not_mem_nil f)

/-! ### Claims about the global invariant and victim selection -/

/-- C9, counterexample.  Fetching the never-allocated page 0 on a fresh
two-frame pool and then calling `new` (which allocates id 0 and silently
overwrites the page-table entry) leaves one frame accounted in neither the
page table nor the free list: resident count plus free count is 1, not the
pool size 2. -/
theorem c9_p4_counterexample :
    (runB (BufferPoolManager.mk' 2 DiskManager.init) [Op.fetch 0, Op.newp]).page_table.length +
        (runB (BufferPoolManager.mk' 2 DiskManager.init)
          [Op.fetch 0, Op.newp]).free_list.length ≠
      (runB (BufferPoolManager.mk' 2 DiskManager.init) [Op.fetch 0, Op.newp]).pool_size := by
  decide

/-- C9, amended.  For every allocation-respecting trace (each fetch names an
already-allocated page id — this excludes the counterexample's fetch of a
never-allocated id, whose table entry a later `new` of the same id silently
overwrites), after every public operation the number of page-table entries
plus the free-list length equals `pool_size`, and every frame is in exactly
one of: the free list, resident-and-pinned, or resident-and-evictable (in
the replacer). -/
theorem c9_partition_invariant (n : Nat) (d₀ : DiskManager) (ops : List Op)
    (hv : Valid (BufferPoolManager.mk' n d₀) ops) :
    (runB (BufferPoolManager.mk' n d₀) ops).page_table.length +
        (runB (BufferPoolManager.mk' n d₀) ops).free_list.length =
      (runB (BufferPoolManager.mk' n d₀) ops).pool_size ∧
    ∀ f, f < (runB (BufferPoolManager.mk' n d₀) ops).pool_size →
      (f ∈ (runB (BufferPoolManager.mk' n d₀) ops).free_list ∧
        f ∉ valsA (runB (BufferPoolManager.mk' n d₀) ops).page_table ∧
        f ∉ (runB (BufferPoolManager.mk' n d₀) ops).replacer.lru_list) ∨
      (f ∉ (runB (BufferPoolManager.mk' n d₀) ops).free_list ∧
        f ∈ valsA (runB (BufferPoolManager.mk' n d₀) ops).page_table ∧
        0 < ((runB (BufferPoolManager.mk' n d₀) ops).getPage f).pin_count ∧
        f ∉ (runB (BufferPoolManager.mk' n d₀) ops).replacer.lru_list) ∨
      (f ∉ (runB (BufferPoolManager.mk' n d₀) ops).free_list ∧
        f ∈ valsA (runB (BufferPoolManager.mk' n d₀) ops).page_table ∧
        ((runB (BufferPoolManager.mk' n d₀) ops).getPage f).pin_count = 0 ∧
        f ∈ (runB (BufferPoolManager.mk' n d₀) ops).replacer.lru_list) := by
  have hinv := inv_trunB ops ⟨BufferPoolManager.mk' n d₀, fun _ => 0, 0⟩ (inv_mk' n d₀) hv
  have hbpm := trunB_bpm ops ⟨BufferPoolManager.mk' n d₀, fun _ => 0, 0⟩
  obtain ⟨core, -, -⟩ := hinv
  rw [hbpm] at core
  refine ⟨core.hcount, ?_⟩
  intro f hf
  rcases core.hcover f hf with hfree | hvals
  · have hnv : f ∉ valsA (runB (BufferPoolManager.mk' n d₀) ops).page_table :=
      core.hdisj f hfree
    exact Or.inl ⟨hfree, hnv, fun hm => hnv ((core.hrep f).mp hm).1⟩
  · have hnf : f ∉ (runB (BufferPoolManager.mk' n d₀) ops).free_list := fun hm =>
      core.hdisj f hm hvals
    rcases lt_or_eq_of_le (core.hpin f) with hpos | hzero
    · exact Or.inr (Or.inl ⟨hnf, hvals, hpos, fun hm => by
        have := ((core.hrep f).mp hm).2
        omega⟩)
    · exact Or.inr (Or.inr ⟨hnf, hvals, hzero.symm,
        (core.hrep f).mpr ⟨hvals, hzero.symm⟩⟩)

/-- C9, witness for the amended statement: after a single `new` on a fresh
two-frame pool the counts balance and each of the two frames falls in
exactly one class. -/
theorem c9_partition_invariant_witness :
    (runB (BufferPoolManager.mk' 2 DiskManager.init) [Op.newp]).page_table.length +
        (runB (BufferPoolManager.mk' 2 DiskManager.init) [Op.newp]).free_list.length =
      (runB (BufferPoolManager.mk' 2 DiskManager.init) [Op.newp]).pool_size ∧
    ∀ f, f < (runB (BufferPoolManager.mk' 2 DiskManager.init) [Op.newp]).pool_size →
      (f ∈ (runB (BufferPoolManager.mk' 2 DiskManager.init) [Op.newp]).free_list ∧
        f ∉ valsA (runB (BufferPoolManager.mk' 2 DiskManager.init) [Op.newp]).page_table ∧
        f ∉ (runB (BufferPoolManager.mk' 2 DiskManager.init) [Op.newp]).replacer.lru_list) ∨
      (f ∉ (runB (BufferPoolManager.mk' 2 DiskManager.init) [Op.newp]).free_list ∧
        f ∈ valsA (runB (BufferPoolManager.mk' 2 DiskManager.init) [Op.newp]).page_table ∧
        0 < ((runB (BufferPoolManager.mk' 2 DiskManager.init) [Op.newp]).getPage f).pin_count ∧
        f ∉ (runB (BufferPoolManager.mk' 2 DiskManager.init) [Op.newp]).replacer.lru_list) ∨
      (f ∉ (runB (BufferPoolManager.mk' 2 DiskManager.init) [Op.newp]).free_list ∧
        f ∈ valsA (runB (BufferPoolManager.mk' 2 DiskManager.init) [Op.newp]).page_table ∧
        ((runB (BufferPoolManager.mk' 2 DiskManager.init) [Op.newp]).getPage f).pin_count = 0 ∧
        f ∈ (runB (BufferPoolManager.mk' 2 DiskManager.init) [Op.newp]).replacer.lru_list) :=
  c9_partition_invariant 2 DiskManager.init [Op.newp] ⟨trivial, trivial⟩

/-- C1, counterexample.  The claim, with no restriction on the trace, fails
on the code: on a three-frame pool, after `new` (page 0), `fetch 1` (a
never-allocated id), `unpin 1`, `unpin 0` and a second `new` (which
allocates id 1 and silently overwrites the fetch-planted table entry,
orphaning frame 1 inside the replacer), the free list is empty and frame 0
is a resident frame with pin count zero — the claim's premises hold — yet
`victim()` returns frame 1, and both `new` and `fetch` of the non-resident
page 5 reuse frame 1, which is not resident at all, hence not the resident
unpinned frame whose most recent unpin is oldest (that frame is 0). -/
theorem c1_lru_counterexample :
    (runB (BufferPoolManager.mk' 3 DiskManager.init)
        [Op.newp, Op.fetch 1, Op.unpin 1 false, Op.unpin 0 false, Op.newp]).free_list = [] ∧
    0 ∈ valsA (runB (BufferPoolManager.mk' 3 DiskManager.init)
        [Op.newp, Op.fetch 1, Op.unpin 1 false, Op.unpin 0 false, Op.newp]).page_table ∧
    ((runB (BufferPoolManager.mk' 3 DiskManager.init)
        [Op.newp, Op.fetch 1, Op.unpin 1 false, Op.unpin 0 false,
          Op.newp]).getPage 0).pin_count = 0 ∧
    lookupA 5 (runB (BufferPoolManager.mk' 3 DiskManager.init)
        [Op.newp, Op.fetch 1, Op.unpin 1 false, Op.unpin 0 false, Op.newp]).page_table =
      none ∧
    ((runB (BufferPoolManager.mk' 3 DiskManager.init)
        [Op.newp, Op.fetch 1, Op.unpin 1 false, Op.unpin 0 false,
          Op.newp]).replacer.victim).1 = some 1 ∧
    ((runB (BufferPoolManager.mk' 3 DiskManager.init)
        [Op.newp, Op.fetch 1, Op.unpin 1 false, Op.unpin 0 false, Op.newp]).newPage).1 =
      some (2, 1) ∧
    ((runB (BufferPoolManager.mk' 3 DiskManager.init)
        [Op.newp, Op.fetch 1, Op.unpin 1 false, Op.unpin 0 false,
          Op.newp]).fetchPage 5).1 = some 1 ∧
    1 ∉ valsA (runB (BufferPoolManager.mk' 3 DiskManager.init)
        [Op.newp, Op.fetch 1, Op.unpin 1 false, Op.unpin 0 false, Op.newp]).page_table := by
  refine ⟨by decide, by decide, by decide, by decide, by decide, by decide, by decide,
    by decide⟩

/-- C1, amended.  For allocation-respecting traces (every fetch names an
already-allocated page id — the restriction the counterexample forces),
in any reachable state where the free list is empty and at least one
resident frame has pin count zero, both `fetch` of a non-resident page and
`new` succeed and reuse exactly the frame returned by the replacer's
`Victim()` call; that frame is resident, unpinned, and its most recent
unpin is strictly older than that of every other resident unpinned frame
(strict least-recently-used order). -/
theorem c1_victim_strict_lru (n : Nat) (d₀ : DiskManager) (ops : List Op)
    (hv : Valid (BufferPoolManager.mk' n d₀) ops)
    (hfree : (runB (BufferPoolManager.mk' n d₀) ops).free_list = [])
    (pid : Int)
    (hmiss : lookupA pid (runB (BufferPoolManager.mk' n d₀) ops).page_table = none)
    (f₀ : Nat)
    (hres : f₀ ∈ valsA (runB (BufferPoolManager.mk' n d₀) ops).page_table)
    (hunp : ((runB (BufferPoolManager.mk' n d₀) ops).getPage f₀).pin_count = 0) :
    ∃ v s₁ s₂,
      ((runB (BufferPoolManager.mk' n d₀) ops).replacer.victim).1 = some v ∧
      (runB (BufferPoolManager.mk' n d₀) ops).fetchPage pid = (some v, s₁) ∧
      (runB (BufferPoolManager.mk' n d₀) ops).newPage =
        (some ((runB (BufferPoolManager.mk' n d₀) ops).disk.next_page_id, v), s₂) ∧
      v ∈ valsA (runB (BufferPoolManager.mk' n d₀) ops).page_table ∧
      ((runB (BufferPoolManager.mk' n d₀) ops).getPage v).pin_count = 0 ∧
      ∀ g, g ∈ valsA (runB (BufferPoolManager.mk' n d₀) ops).page_table →
        ((runB (BufferPoolManager.mk' n d₀) ops).getPage g).pin_count = 0 → g ≠ v →
        lastUnpinB n d₀ ops v < lastUnpinB n d₀ ops g := by
  obtain ⟨core, hpair, -⟩ :=
    inv_trunB ops ⟨BufferPoolManager.mk' n d₀, fun _ => 0, 0⟩ (inv_mk' n d₀) hv
  have hbpm := trunB_bpm ops ⟨BufferPoolManager.mk' n d₀, fun _ => 0, 0⟩
  rw [hbpm] at core hpair
  have hmem₀ : f₀ ∈ (runB (BufferPoolManager.mk' n d₀) ops).replacer.lru_list :=
    (core.hrep f₀).mpr ⟨hres, hunp⟩
  obtain ⟨l, v, hlv⟩ : ∃ l v,
      (runB (BufferPoolManager.mk' n d₀) ops).replacer.lru_list = l ++ [v] := by
    rcases List.eq_nil_or_concat
      ((runB (BufferPoolManager.mk' n d₀) ops).replacer.lru_list) with he | ⟨l, v, he⟩
    · rw [he] at hmem₀
      exact absurd hmem₀ (List.not_mem_nil f₀)
    · exact ⟨l, v, by rw [he, List.concat_eq_append]⟩
  have hvic := LRUReplacer.victim_of_concat hlv
  have hff := BufferPoolManager.findFreeFrame_victim hfree hlv
  have hfetch := BufferPoolManager.fetchPage_miss_some hmiss hff
  have hnew := BufferPoolManager.newPage_some hff
  have hvmem : v ∈ (runB (BufferPoolManager.mk' n d₀) ops).replacer.lru_list := by
    rw [hlv]
    exact List.mem_append.mpr (Or.inr (by simp))
  obtain ⟨hvres, hvpin⟩ := (core.hrep v).mp hvmem
  have hnn : (({ runB (BufferPoolManager.mk' n d₀) ops with
      replacer := (⟨l⟩ : LRUReplacer)
      disk :=
        if ((runB (BufferPoolManager.mk' n d₀) ops).getPage v).is_dirty then
          (runB (BufferPoolManager.mk' n d₀) ops).disk.writePage
            ((runB (BufferPoolManager.mk' n d₀) ops).getPage v).data.header.page_id
            ((runB (BufferPoolManager.mk' n d₀) ops).getPage v).data
        else (runB (BufferPoolManager.mk' n d₀) ops).disk
      page_table :=
        eraseA ((runB (BufferPoolManager.mk' n d₀) ops).getPage v).data.header.page_id
          (runB (BufferPoolManager.mk' n d₀) ops).page_table }).setPage v
        defaultPage).disk.next_page_id =
      (runB (BufferPoolManager.mk' n d₀) ops).disk.next_page_id := by
    show (if _ then _ else _ : DiskManager).next_page_id = _
    split
    · exact DiskManager.writePage_next _ _ _
    · rfl
  rw [hnn] at hnew
  refine ⟨v, _, _, ?_, hfetch, hnew, hvres, hvpin, ?_⟩
  · rw [hvic]
  · intro g hgres hgpin hgv
    have hgmem : g ∈ (runB (BufferPoolManager.mk' n d₀) ops).replacer.lru_list :=
      (core.hrep g).mpr ⟨hgres, hgpin⟩
    have hlast : (runB (BufferPoolManager.mk' n d₀) ops).replacer.lru_list.getLast? =
        some v := by
      rw [hlv]
      exact List.getLast?_concat l
    exact time_getLast_min hpair hlast g hgmem hgv

/-- C1, witness: a one-frame pool where page 0 was created and evicted and
page 1 is resident but unpinned; fetching the non-resident page 0 (and
`new`) must evict frame 0, the replacer's victim. -/
theorem c1_victim_strict_lru_witness :
    ((runB (BufferPoolManager.mk' 1 DiskManager.init)
        [Op.newp, Op.unpin 0 false, Op.newp, Op.unpin 1 false]).free_list = [] ∧
      lookupA 0 (runB (BufferPoolManager.mk' 1 DiskManager.init)
        [Op.newp, Op.unpin 0 false, Op.newp, Op.unpin 1 false]).page_table = none ∧
      0 ∈ valsA (runB (BufferPoolManager.mk' 1 DiskManager.init)
        [Op.newp, Op.unpin 0 false, Op.newp, Op.unpin 1 false]).page_table ∧
      ((runB (BufferPoolManager.mk' 1 DiskManager.init)
        [Op.newp, Op.unpin 0 false, Op.newp, Op.unpin 1 false]).getPage 0).pin_count = 0) ∧
    (∃ v s₁ s₂,
      ((runB (BufferPoolManager.mk' 1 DiskManager.init)
          [Op.newp, Op.unpin 0 false, Op.newp, Op.unpin 1 false]).replacer.victim).1 =
        some v ∧
      (runB (BufferPoolManager.mk' 1 DiskManager.init)
          [Op.newp, Op.unpin 0 false, Op.newp, Op.unpin 1 false]).fetchPage 0 =
        (some v, s₁) ∧
      (runB (BufferPoolManager.mk' 1 DiskManager.init)
          [Op.newp, Op.unpin 0 false, Op.newp, Op.unpin 1 false]).newPage =
        (some ((runB (BufferPoolManager.mk' 1 DiskManager.init)
          [Op.newp, Op.unpin 0 false, Op.newp, Op.unpin 1 false]).disk.next_page_id, v),
          s₂) ∧
      v ∈ valsA (runB (BufferPoolManager.mk' 1 DiskManager.init)
          [Op.newp, Op.unpin 0 false, Op.newp, Op.unpin 1 false]).page_table ∧
      ((runB (BufferPoolManager.mk' 1 DiskManager.init)
          [Op.newp, Op.unpin 0 false, Op.newp, Op.unpin 1 false]).getPage v).pin_count = 0 ∧
      ∀ g, g ∈ valsA (runB (BufferPoolManager.mk' 1 DiskManager.init)
          [Op.newp, Op.unpin 0 false, Op.newp, Op.unpin 1 false]).page_table →
        ((runB (BufferPoolManager.mk' 1 DiskManager.init)
          [Op.newp, Op.unpin 0 false, Op.newp, Op.unpin 1 false]).getPage g).pin_count = 0 →
        g ≠ v →
        lastUnpinB 1 DiskManager.init
            [Op.newp, Op.unpin 0 false, Op.newp, Op.unpin 1 false] v <
          lastUnpinB 1 DiskManager.init
            [Op.newp, Op.unpin 0 false, Op.newp, Op.unpin 1 false] g) :=
  ⟨⟨by decide, by decide, by decide, by decide⟩,
    c1_victim_strict_lru 1 DiskManager.init
      [Op.newp, Op.unpin 0 false, Op.newp, Op.unpin 1 false]
      ⟨trivial, trivial, trivial, trivial, trivial⟩
      (by decide) 0 (by decide) 0 (by decide) (by decide)⟩

end CMSE
